import Mathlib

/-!
Shallow embedding of `GPy/core/parameterization/ties_and_remappings.py`
(class `Tie`), together with proofs about its operations.

Modelling conventions:
* Python floats are modelled as rationals (`ℚ`); numpy arrays as lists.
* The parameter tree is modelled as a flat list of scalar-vector leaves
  followed by the tie parameter (the `Tie` object is linked at the end of
  the root), so the flattened value vector is the concatenation of the
  leaves' values and the canonical-slot values, and `buf_idx` is a
  contiguous index range at the end of the flattened vector.
* `np.empty` buffers are modelled as zero-filled; every claim-relevant
  path overwrites these entries before reading them.
* Constraints are modelled as at most one constraint id per leaf and per
  canonical slot (the tying semantics applies one constraint to a whole
  leaf; a fresh `Param` starts unconstrained).
* In the source, `tied_param` is a numpy view into the flattened vector
  of the highest parent; here the flattened vector `paramArray` is
  derived from the state and written back with `writeBack`, which gives
  the same aliasing semantics.
* Parameter collections passed to the public operations are flattened
  lists of leaf indices into the tree (the source's `_traverse_param`
  recursion enumerates nested collections in exactly this order).
-/

namespace GPyTie

/-- Scalar parameter leaf of the model tree: its values, its gradients,
its tie labels (one per scalar, `0` = untied; attribute `tie` in the
source) and an optional constraint. -/
structure Leaf where
  vals : List ℚ
  grads : List ℚ
  tie : List Nat
  con : Option Nat
deriving DecidableEq

/-- Canonical slot store (`self.tied_param` in the source): one value,
gradient, tie label and optional constraint per active tie group. -/
structure TiedParam where
  vals : List ℚ
  grads : List ℚ
  tie : List Nat
  cons : List (Option Nat)
deriving DecidableEq

/-- State of the `Tie` object together with the leaves of its host tree.
`label_buf` and `buf_idx` are the cached buffers rebuilt by
`_update_label_buf`; `PROPAGATE_VAL` is the one-shot `_PROPAGATE_VAL_`
flag; `optimizer_copy_transformed` is `_optimizer_copy_transformed`. -/
structure TieState where
  leaves : List Leaf
  tied_param : Option TiedParam
  label_buf : Option (List Nat)
  buf_idx : Option (List Nat)
  PROPAGATE_VAL : Bool
  optimizer_copy_transformed : Bool
deriving DecidableEq

/-- Placeholder leaf returned for an out-of-range leaf index (the source
would raise; no claim exercises this). -/
def defaultLeaf : Leaf := ⟨[], [], [], none⟩

/-- Leaf of the tree at index `i`. -/
def leafAt (s : TieState) (i : Nat) : Leaf := s.leaves.getD i defaultLeaf

/-- Apply `f` to the leaf at index `i` in a leaf list. -/
def modifyLeafList (ls : List Leaf) (i : Nat) (f : Leaf → Leaf) : List Leaf :=
  match ls[i]? with
  | none => ls
  | some lf => ls.set i (f lf)

/-- Apply `f` to the leaf at index `i` of the state's tree. -/
def modifyLeafAt (s : TieState) (i : Nat) (f : Leaf → Leaf) : TieState :=
  { s with leaves := modifyLeafList s.leaves i f }

/-- Concatenation of a list of lists (the flattening performed by the
source's `_traverse_param` / `np.hstack`). -/
def joinAll {α : Type} : List (List α) → List α
  | [] => []
  | x :: xs => x ++ joinAll xs

/-- Flattened value vector of the leaves (excluding the tie parameter). -/
def flatVals (ls : List Leaf) : List ℚ := joinAll (ls.map Leaf.vals)

/-- Flattened gradient vector of the leaves. -/
def flatGrads (ls : List Leaf) : List ℚ := joinAll (ls.map Leaf.grads)

/-- Flattened tie-label vector of the leaves. -/
def flatTies (ls : List Leaf) : List Nat := joinAll (ls.map Leaf.tie)

/-- Insert a natural number into a strictly sorted list, skipping it if
already present (helper for the model of `np.unique`). -/
def insUnique (a : Nat) : List Nat → List Nat
  | [] => [a]
  | b :: bs => if a < b then a :: b :: bs else if a = b then b :: bs else b :: insUnique a bs

/-- Model of `np.unique`: the sorted list of distinct elements. -/
def npUnique (l : List Nat) : List Nat := l.foldr insUnique []

/-- Model of `Tie._get_labels`: distinct labels occurring on the given
leaves, sorted ascending (`np.unique` of the stacked tie vectors). -/
def get_labels (s : TieState) (plist : List Nat) : List Nat :=
  npUnique (joinAll (plist.map (fun i => (leafAt s i).tie)))

/-- Masked assignment `vals[tie == L] = v` over parallel lists, the basic
numpy idiom used throughout the source. Length-preserving on `vals`. -/
def maskSet {α : Type} : List Nat → List α → Nat → α → List α
  | _, [], _, _ => []
  | [], vs, _, _ => vs
  | t :: ts, v :: vs, L, x => (if t = L then x else v) :: maskSet ts vs L x

/-- Model of `Tie._set_labels`: with a single label, broadcast it to all
scalars of every listed leaf; otherwise each listed leaf takes the
leading slice of `labels` (the source resets the offset for each
top-level element of `plist`). -/
def set_labels (s : TieState) (plist : List Nat) (labels : List Nat) : TieState :=
  if labels.length = 1 then
    plist.foldl (fun st i => modifyLeafAt st i
      (fun lf => { lf with tie := List.replicate lf.tie.length (labels.headD 0) })) s
  else
    plist.foldl (fun st i => modifyLeafAt st i
      (fun lf => { lf with tie := labels.take lf.tie.length })) s

/-- Model of `Tie._sync_val_group`: mean of all current values of the
listed leaves, then every listed leaf is set to that mean. -/
def sync_val_group (s : TieState) (plist : List Nat) : ℚ × TieState :=
  let allv := joinAll (plist.map (fun i => (leafAt s i).vals))
  let val := allv.sum / (allv.length : ℚ)
  (val, plist.foldl (fun st i => modifyLeafAt st i
    (fun lf => { lf with vals := List.replicate lf.vals.length val })) s)

/-- Model of `Tie._sync_constraint_group`: without an existing tie, pick
the first constraint found among the leaves (if any) and force it onto
every leaf; with an existing tie and constraint, force that constraint;
with an existing unconstrained tie, unconstrain every leaf. -/
def sync_constraint_group (s : TieState) (plist : List Nat) (hastie : Bool)
    (tie_con0 : Option Nat) : Option Nat × TieState :=
  let tie_con := if hastie then tie_con0
    else (plist.filterMap (fun i => (leafAt s i).con)).head?
  match tie_con with
  | some c =>
    (some c, plist.foldl (fun st i => modifyLeafAt st i (fun lf => { lf with con := some c })) s)
  | none =>
    if hastie then
      (none, plist.foldl (fun st i => modifyLeafAt st i (fun lf => { lf with con := none })) s)
    else (none, s)

/-- Model of `self.tied_param[self.tied_param.tie==L].constrain(c)`. -/
def constrain_slot_label (s : TieState) (L : Nat) (c : Nat) : TieState :=
  match s.tied_param with
  | none => s
  | some t => { s with tied_param := some { t with cons := maskSet t.tie t.cons L (some c) } }

/-- First constraint carried by the slots labelled `L` (the source's
`tie_p.constraints.properties()[0] if tie_p.constraints.size>0 else None`). -/
def slot_first_con (s : TieState) (L : Nat) : Option Nat :=
  match s.tied_param with
  | none => none
  | some t =>
    ((t.tie.zip t.cons).filterMap (fun p => if p.1 = L then p.2 else none)).head?

/-- Model of `Tie._expand_tie_param`: allocate `num` fresh slots with
fresh sequential labels strictly above the current maximum (starting at
1 when the store is empty); the new store is a fresh `Param`, so it
starts unconstrained with zero gradient, and the new value entries are
uninitialised (`np.empty`, modelled as 0). Returns the fresh labels and
their index positions inside the store. -/
def expand_tie_param (s : TieState) (num : Nat) : List Nat × List Nat × TieState :=
  match s.tied_param with
  | none =>
    let labellist := List.range' 1 num
    let idxlist := List.range' 0 num
    (labellist, idxlist, { s with tied_param := some {
        vals := List.replicate num 0, grads := List.replicate num 0,
        tie := labellist, cons := List.replicate num none } })
  | some t =>
    let start := t.tie.foldr max 0 + 1
    let labellist := List.range' start num
    let idxlist := List.range' t.vals.length num
    (labellist, idxlist, { s with tied_param := some {
        vals := t.vals ++ List.replicate num 0,
        grads := List.replicate (t.vals.length + num) 0,
        tie := t.tie ++ labellist,
        cons := List.replicate (t.vals.length + num) none } })

/-- Keep the (tie, value) slot pairs whose label is not in `labels`
(the compaction `tied_param[idx]`, `old_tie_[idx]` with
`idx = ¬in1d(tie, labels)`). -/
def removeSlots (labels : List Nat) : List Nat → List ℚ → List Nat × List ℚ
  | [], _ => ([], [])
  | _ :: _, [] => ([], [])
  | t :: ts, v :: vs =>
    let r := removeSlots labels ts vs
    if t ∈ labels then r else (t :: r.1, v :: r.2)

/-- Model of `Tie._remove_tie_param`: if the label list covers the whole
store, unlink it entirely; otherwise compact the surviving slots into a
fresh `Param` (which starts unconstrained with zero gradient). When the
store is `None` the source would raise; the model returns the state. -/
def remove_tie_param (s : TieState) (labels : List Nat) : TieState :=
  match s.tied_param with
  | none => s
  | some t =>
    if labels.length = t.vals.length then { s with tied_param := none }
    else
      let r := removeSlots labels t.tie t.vals
      { s with tied_param := some {
          vals := r.2, grads := List.replicate r.1.length 0,
          tie := r.1, cons := List.replicate r.1.length none } }

/-- Sequentially rewrite labels: for each pair `(l1, l2)` in order, every
occurrence of `l1` becomes `l2` (body of `Tie._replace_labels`). -/
def replaceLabelsList (pairs : List (Nat × Nat)) (tie : List Nat) : List Nat :=
  pairs.foldl (fun cur p => cur.map (fun l => if l = p.1 then p.2 else l)) tie

/-- Model of `Tie._replace_labels` applied to the whole tree: rewrites
the labels of every leaf and of the slot store itself. -/
def replace_labels (s : TieState) (pairs : List (Nat × Nat)) : TieState :=
  { s with
    leaves := s.leaves.map (fun lf => { lf with tie := replaceLabelsList pairs lf.tie }),
    tied_param := match s.tied_param with
      | none => none
      | some t => some { t with tie := replaceLabelsList pairs t.tie } }

/-- Model of `Tie._merge_tie_labels`: merge all labels into the first
one by removing the other slots and rewriting their labels. -/
def merge_tie_labels (s : TieState) (labels : List Nat) : TieState :=
  if labels.length < 2 then s
  else replace_labels (remove_tie_param s labels.tail)
    (labels.tail.map (fun l => (l, labels.headD 0)))

/-- Model of `Tie._merge_tie_labelpair`: merge the second label list
into the first, pointwise. -/
def merge_tie_labelpair (s : TieState) (labelpair : List Nat × List Nat) : TieState :=
  replace_labels (remove_tie_param s labelpair.2) (labelpair.2.zip labelpair.1)

/-- Model of `Tie._remove_unnecessary_ties`: drop every slot whose label
occurs at most twice in the label buffer and reset those labels to 0
throughout the tree. -/
def remove_unnecessary_ties (s : TieState) : TieState :=
  match s.tied_param with
  | none => s
  | some t =>
    let labels := t.tie.filter (fun l => decide ((s.label_buf.getD []).count l ≤ 2))
    if 0 < labels.length then
      replace_labels (remove_tie_param s labels) (labels.map (fun l => (l, 0)))
    else s

/-- Model of `Tie._update_label_buf`: rebuild the label buffer (leaf
labels followed by the slot labels, in raveled order) and the index list
of the slot positions inside the flattened vector. -/
def update_label_buf (s : TieState) : TieState :=
  match s.tied_param with
  | none => { s with label_buf := none, buf_idx := none }
  | some t =>
    { s with
      label_buf := some (flatTies s.leaves ++ t.tie),
      buf_idx := some (List.range' (flatVals s.leaves).length t.vals.length) }

/-- Model of `self.tied_param[self.tied_param.tie==L] = val`. When the
store is `None` the source would raise; the model returns the state. -/
def set_slot_vals (s : TieState) (L : Nat) (val : ℚ) : TieState :=
  match s.tied_param with
  | none => s
  | some t => { s with tied_param := some { t with vals := maskSet t.tie t.vals L val } }

/-- Model of `Tie.tie_together`. The branch condition `labels = [0]` is
the source's `labels[0]==0 and labels.size==1` on the sorted distinct
label vector. The final `update_model(True)` fires the change
notification, which is modelled separately by `parameters_changed`. -/
def tie_together (s : TieState) (plist : List Nat) : TieState :=
  let labels := get_labels s plist
  let r1 := sync_val_group s plist
  let r2 :=
    if labels = [0] then
      let e := expand_tie_param r1.2 1
      let s2 := set_labels e.2.2 plist e.1
      let r3 := sync_constraint_group s2 plist false none
      let s3 := match r3.1 with
        | some c => constrain_slot_label r3.2 (e.1.headD 0) c
        | none => r3.2
      (e.1.headD 0, s3)
    else
      let tie_labels := labels.filter (fun l => decide (0 < l))
      let s2 := if 1 < tie_labels.length then merge_tie_labels r1.2 tie_labels else r1.2
      let s3 := set_labels s2 plist [tie_labels.headD 0]
      let tcon := slot_first_con s3 (tie_labels.headD 0)
      let s4 := (sync_constraint_group s3 plist true tcon).2
      (tie_labels.headD 0, s4)
  set_slot_vals (update_label_buf r2.2) r2.1 r1.1

/-- Model of `Tie._get_labels_vector` on the two flattened label
vectors. On a length mismatch numpy raises (at `label1*label2` for
general lengths, at the masked assignment when one side has one
element), before any mutation; this is modelled as `none`. Otherwise:
`expandlist` is the set of positions where the elementwise product is 0
(at least one side untied), `labellist` is `label1` with the positions
where only side 2 is tied overwritten by `label2`, and `removelist` is
the pair of label vectors at positions tied on both sides with different
labels. -/
def get_labels_vector (l1 l2 : List Nat) :
    Option (List Nat × (List Nat × List Nat) × List Nat) :=
  if l1.length = l2.length then
    let prod := l1.zip l2
    let expandlist := (List.range l1.length).filter
      (fun j => decide (l1.getD j 0 * l2.getD j 0 = 0))
    let labellist := prod.map (fun p => if p.1 = 0 ∧ 0 < p.2 then p.2 else p.1)
    let keep := prod.filter (fun p => decide (0 < p.1 ∧ 0 < p.2 ∧ p.1 ≠ p.2))
    some (expandlist, (keep.map (·.1), keep.map (·.2)), labellist)
  else none

/-- Model of `Tie._sync_val_pair`: copy `p1`'s current values into `p2`
and return them (numpy requires the sizes to agree). -/
def sync_val_pair (s : TieState) (i1 i2 : Nat) : List ℚ × TieState :=
  let p1vals := (leafAt s i1).vals
  (p1vals, modifyLeafAt s i2 (fun lf => { lf with vals := p1vals.take lf.vals.length }))

/-- Scattered assignment `xs[idxs] = vs` over a list. -/
def setListAt {α : Type} (xs : List α) (idxs : List Nat) (vs : List α) : List α :=
  (idxs.zip vs).foldl (fun cur p => cur.set p.1 p.2) xs

/-- Model of `self.tied_param[idxlist] = newvals`. -/
def set_slot_vals_at (s : TieState) (idxs : List Nat) (vs : List ℚ) : TieState :=
  match s.tied_param with
  | none => s
  | some t => { s with tied_param := some { t with vals := setListAt t.vals idxs vs } }

/-- Model of `self.tied_param[idx].constrain(c)` at index positions. -/
def constrain_slots_at (s : TieState) (idxs : List Nat) (c : Nat) : TieState :=
  match s.tied_param with
  | none => s
  | some t => { s with tied_param := some {
      t with cons := setListAt t.cons idxs (List.replicate idxs.length (some c)) } }

/-- Model of `Tie._sync_constraint_vector`: only `p1`'s constraint is
considered; it is applied to every freshly expanded slot (the
constraint's index set covers all of `p1`, so `in1d(expandlist, ind)`
selects all of `idxlist`). -/
def sync_constraint_vector (s : TieState) (i1 : Nat) (idxlist : List Nat) : TieState :=
  match (leafAt s i1).con with
  | none => s
  | some c => constrain_slots_at s idxlist c

/-- Model of `Tie.tie_vector` on two leaves of equal element count; a
length mismatch raises inside `_get_labels_vector` before any mutation
(modelled as `none`). When `expandlist` is empty the source raises
`NameError` at the `_sync_constraint_vector` call (`idxlist` is unbound);
the model uses an empty index list there instead. -/
def tie_vector (s : TieState) (i1 i2 : Nat) : Option TieState :=
  match get_labels_vector (leafAt s i1).tie (leafAt s i2).tie with
  | none => none
  | some (expandlist, removelist, labellist0) =>
    let r1 := sync_val_pair s i1 i2
    let r2 :=
      if 0 < expandlist.length then
        let e := expand_tie_param r1.2 expandlist.length
        let ll := setListAt labellist0 expandlist e.1
        let s2 := set_slot_vals_at e.2.2 e.2.1
          (expandlist.map (fun j => r1.1.getD j 0))
        (ll, e.2.1, s2)
      else (labellist0, ([] : List Nat), r1.2)
    let s3 := if 0 < removelist.1.length then merge_tie_labelpair r2.2.2 removelist else r2.2.2
    let s4 := set_labels s3 [i1, i2] r2.1
    let s5 := sync_constraint_vector s4 i1 r2.2.1
    some (update_label_buf s5)

/-- Model of `Tie.untie`: reset the listed leaves' labels to 0, rebuild
the label buffer, prune collapsed groups, rebuild again. -/
def untie (s : TieState) (plist : List Nat) : TieState :=
  update_label_buf (remove_unnecessary_ties (update_label_buf (set_labels s plist [0])))

/-- Value vector of the slot store (empty when unlinked). -/
def tiedVals : Option TiedParam → List ℚ
  | none => []
  | some t => t.vals

/-- Flattened value vector of the whole tree
(`self._highest_parent_.param_array`). -/
def paramArray (s : TieState) : List ℚ := flatVals s.leaves ++ tiedVals s.tied_param

/-- Distribute a flattened value vector back onto the leaves, each leaf
taking its chunk in order. -/
def distributeVals : List Leaf → List ℚ → List Leaf
  | [], _ => []
  | lf :: ls, a => { lf with vals := a.take lf.vals.length } :: distributeVals ls (a.drop lf.vals.length)

/-- Write a flattened value vector back into the state (the aliasing of
`param_array` with the leaves and with `tied_param`). -/
def writeBack (s : TieState) (a : List ℚ) : TieState :=
  { s with
    leaves := distributeVals s.leaves a,
    tied_param := match s.tied_param with
      | none => none
      | some t => some { t with vals := (a.drop (flatVals s.leaves).length).take t.vals.length } }

/-- Positions of the flattened vector whose label equals the label at
position `k` and whose value differs from the value at position `k`
(the source's mask `b` inside `b0`; position `k` is the slot position,
and `tied_param[i]` is the view of the value there). -/
def diffPositions (lb : List Nat) (a : List ℚ) (k : Nat) : List Nat :=
  (List.range a.length).filter
    (fun j => decide (lb.getD j 0 = lb.getD k 0 ∧ a.getD j 0 ≠ a.getD k 0))

/-- Body of the `Tie._check_change` loop for the group whose slot sits at
flattened position `k`: no differing member leaves the vector unchanged;
exactly one differing member broadcasts that member's value over the
group (including the slot); two or more broadcast the slot's value. -/
def check_step (lb : List Nat) (p : List ℚ × Bool) (k : Nat) : List ℚ × Bool :=
  let ds := diffPositions lb p.1 k
  if ds.length = 0 then p
  else if ds.length = 1 then
    (maskSet lb p.1 (lb.getD k 0) (p.1.getD (ds.headD 0) 0), true)
  else
    (maskSet lb p.1 (lb.getD k 0) (p.1.getD k 0), true)

/-- Model of the `Tie._check_change` loop over all slot positions. -/
def check_change_arr (lb : List Nat) (bi : List Nat) (a : List ℚ) : List ℚ × Bool :=
  bi.foldl (check_step lb) (a, false)

/-- Model of `Tie._check_change` on the state: returns whether any group
required correction, together with the corrected state. -/
def check_change (s : TieState) : Bool × TieState :=
  match s.tied_param with
  | none => (false, s)
  | some _ =>
    let r := check_change_arr (s.label_buf.getD []) (s.buf_idx.getD []) (paramArray s)
    (r.2, writeBack s r.1)

/-- Sum of the values at the positions whose label equals `L`, over
parallel label/value lists (`gradient[label_buf == L].sum()`). -/
def maskSum : List Nat → List ℚ → Nat → ℚ
  | _, [], _ => 0
  | [], _ :: _, _ => 0
  | t :: ts, v :: vs, L => (if t = L then v else 0) + maskSum ts vs L

/-- Model of `Tie.collate_gradient`: zero the slot gradients, then for
each slot write the sum of the gradients at the positions sharing its
label into that slot's gradient (sequentially, through the view into the
flattened gradient vector). -/
def collate_gradient (s : TieState) : TieState :=
  match s.tied_param with
  | none => s
  | some t =>
    let lb := s.label_buf.getD []
    let bi := s.buf_idx.getD []
    let base := (flatGrads s.leaves).length
    let g0 := flatGrads s.leaves ++ List.replicate t.vals.length 0
    let gfin := (List.range t.vals.length).foldl
      (fun g i => g.set (base + i)
        (maskSum lb g (lb.getD (bi.getD i 0) 0))) g0
    { s with tied_param := some { t with grads := (gfin.drop base).take t.vals.length } }

/-- Model of `Tie.parameters_changed` with explicit recursion fuel: when
the check reports a change, `_trigger_params_changed` fires the
notification again (which clears `_optimizer_copy_transformed` and
re-enters `parameters_changed`) before the outer gradient collation. Two
units of fuel realise the source behaviour whenever the second check
reports no change, which holds on every state reached in the theorems
below. -/
def parameters_changed_fuel : Nat → TieState → TieState
  | 0, s => s
  | n + 1, s =>
    if s.PROPAGATE_VAL then
      collate_gradient { s with PROPAGATE_VAL := false }
    else
      let r := check_change s
      let s2 := if r.1 then
          parameters_changed_fuel n { r.2 with optimizer_copy_transformed := false }
        else r.2
      collate_gradient s2

/-- Model of `Tie.parameters_changed`. -/
def parameters_changed (s : TieState) : TieState := parameters_changed_fuel 2 s

/-- Model of `Tie._parameters_changed_notification`: a notification
whose originating object is the `Tie` component itself does nothing;
otherwise the optimizer-copy flag is cleared and `parameters_changed`
runs. -/
def parameters_changed_notification (s : TieState) (whichIsSelf : Bool) : TieState :=
  if whichIsSelf then s
  else parameters_changed { s with optimizer_copy_transformed := false }

/-- Model of `Tie.propagate_val`: broadcast every slot's value over its
group in the flattened vector and set the one-shot flag. -/
def propagate_val (s : TieState) : TieState :=
  match s.tied_param with
  | none => { s with PROPAGATE_VAL := true }
  | some t =>
    let lb := s.label_buf.getD []
    let bi := s.buf_idx.getD []
    let a := (List.range t.vals.length).foldl
      (fun a i => maskSet lb a (lb.getD (bi.getD i 0) 0) (t.vals.getD i 0)) (paramArray s)
    { writeBack s a with PROPAGATE_VAL := true }

/-- Labels of the active canonical slots (empty when the store is
unlinked). -/
def remainingTies (s : TieState) : List Nat :=
  match s.tied_param with
  | none => []
  | some t => t.tie

/-- Values of the active canonical slots. -/
def remainingVals (s : TieState) : List ℚ :=
  match s.tied_param with
  | none => []
  | some t => t.vals

/-- Well-formedness of the leaves: tie labels and gradients are aligned
with the values, scalar for scalar. -/
def LeavesWF (ls : List Leaf) : Prop :=
  ∀ lf ∈ ls, lf.tie.length = lf.vals.length ∧ lf.grads.length = lf.vals.length

/-- Well-formedness of the slot store: aligned buffers, distinct
positive labels (the source asserts `np.all(self.tied_param.tie>0)`). -/
def TiedWF (t : TiedParam) : Prop :=
  t.tie.length = t.vals.length ∧ t.grads.length = t.vals.length ∧
    t.tie.Nodup ∧ ∀ l ∈ t.tie, 0 < l

/-- Well-formedness of an optional slot store. -/
def TiedOK : Option TiedParam → Prop
  | none => True
  | some t => TiedWF t

/-- Well-formedness of a state. -/
def StateWF (s : TieState) : Prop := LeavesWF s.leaves ∧ TiedOK s.tied_param

/-- Every positive label on a leaf has a canonical slot. -/
def LabelIntegrity (s : TieState) : Prop :=
  ∀ l ∈ flatTies s.leaves, l = 0 ∨ l ∈ remainingTies s

instance : DecidablePred TiedWF := fun t => by unfold TiedWF; infer_instance

instance : ∀ o, Decidable (TiedOK o) := fun o =>
  match o with
  | none => inferInstanceAs (Decidable True)
  | some t => inferInstanceAs (Decidable (TiedWF t))

instance : DecidablePred LeavesWF := fun ls => by unfold LeavesWF; infer_instance

instance : DecidablePred StateWF := fun s => by unfold StateWF; infer_instance

instance : DecidablePred LabelIntegrity := fun s => by unfold LabelIntegrity; infer_instance

/-- All members of the group whose canonical slot sits at flattened
position `k` hold the value at position `k`. -/
def Equalized (lb : List Nat) (a : List ℚ) (k : Nat) : Prop :=
  ∀ j, j < a.length → lb.getD j 0 = lb.getD k 0 → a.getD j 0 = a.getD k 0

/-- All tie groups are internally consistent: every position of the
flattened vector carrying a slot's label holds that slot's value. -/
def GroupsEqual (s : TieState) : Prop :=
  ∀ t, s.tied_param = some t → ∀ i, i < t.tie.length →
    ∀ j, j < (paramArray s).length →
      (s.label_buf.getD []).getD j 0 = t.tie.getD i 0 →
      (paramArray s).getD j 0 = t.vals.getD i 0

/-- Shape of a state right after `_update_label_buf`: the cached buffers
match the tree, the buffers are aligned, and the slot labels are
distinct. -/
def Structured (s : TieState) (t : TiedParam) : Prop :=
  s.tied_param = some t ∧
  s.label_buf = some (flatTies s.leaves ++ t.tie) ∧
  s.buf_idx = some (List.range' (flatVals s.leaves).length t.vals.length) ∧
  (flatTies s.leaves).length = (flatVals s.leaves).length ∧
  t.tie.length = t.vals.length ∧ t.tie.Nodup

/-- Two untied scalar leaves holding 2 and 4, no existing ties. -/
def exampleTwoLeaves : TieState :=
  ⟨[⟨[2], [0], [0], none⟩, ⟨[4], [0], [0], none⟩], none, none, none, false, false⟩

/-- Leaf 0 is untied; leaves 1–3 are tied together under label 1 with a
canonical slot holding 3 (so group 1 has three genuine members). -/
def exampleOneSideTied : TieState :=
  ⟨[⟨[1], [0], [0], none⟩, ⟨[2], [0], [1], none⟩, ⟨[3], [0], [1], none⟩,
    ⟨[4], [0], [1], none⟩],
   some ⟨[3], [0], [1], [none]⟩, some [0, 1, 1, 1, 1], some [4], false, false⟩

/-- Two untied leaves of unequal element count (2 versus 1). -/
def exampleMismatch : TieState :=
  ⟨[⟨[1, 2], [0, 0], [0, 0], none⟩, ⟨[3], [0], [0], none⟩], none, none, none, false, false⟩

/-- Leaves 0 and 1 tied under label 1 (gradients 2 and 7), leaf 2 free
(gradient 4), with a consistent label buffer and slot index. -/
def exampleGradState : TieState :=
  ⟨[⟨[1], [2], [1], none⟩, ⟨[5], [7], [1], none⟩, ⟨[9], [4], [0], none⟩],
   some ⟨[3], [0], [1], [none]⟩, some [1, 1, 0, 1], some [3], false, false⟩

/-! ### Supporting lemmas -/

theorem set_eq_self {α : Type} :
    ∀ (l : List α) (i : Nat) (x : α), l[i]? = some x → l.set i x = l
  | [], i, x, h => by simp at h
  | a :: l, 0, x, h => by simp_all
  | a :: l, i + 1, x, h => by
    simpa [List.set] using set_eq_self l i x (by simpa using h)

theorem getD_drop {α : Type} (d : α) :
    ∀ (l : List α) (n i : Nat), (l.drop n).getD i d = l.getD (n + i) d
  | _, 0, _ => by simp
  | [], _ + 1, _ => by simp
  | a :: l, n + 1, i => by
    rw [List.drop_succ_cons, getD_drop d l n i, show n + 1 + i = (n + i) + 1 by omega,
      List.getD_cons_succ]

theorem getD_take {α : Type} (d : α) (l : List α) (n i : Nat) (h : i < n) :
    (l.take n).getD i d = l.getD i d := by
  simp [List.getD_eq_getElem?_getD, List.getElem?_take_of_lt h]

theorem getD_set_self {α : Type} (d : α) (l : List α) (i : Nat) (x : α) (h : i < l.length) :
    (l.set i x).getD i d = x := by
  simp [List.getD_eq_getElem?_getD, List.getElem?_set_self h]

theorem getD_set_ne {α : Type} (d : α) (l : List α) (i j : Nat) (x : α) (h : i ≠ j) :
    (l.set i x).getD j d = l.getD j d := by
  simp [List.getD_eq_getElem?_getD, List.getElem?_set_ne h]

theorem getD_replicate_zero (n j : Nat) : (List.replicate n (0 : ℚ)).getD j 0 = 0 := by
  rw [List.getD_eq_getElem?_getD, List.getElem?_replicate]
  split <;> rfl

theorem getD_range' (b m i : Nat) (h : i < m) : (List.range' b m).getD i 0 = b + i := by
  rw [List.getD_eq_getElem _ _ (by simpa using h)]
  exact List.getElem_range'_1 i (by simpa using h)

theorem modifyLeafList_map {β : Type} (g : Leaf → β) (f : Leaf → Leaf)
    (hf : ∀ lf, g (f lf) = g lf) (ls : List Leaf) (i : Nat) :
    (modifyLeafList ls i f).map g = ls.map g := by
  unfold modifyLeafList
  cases h : ls[i]? with
  | none => rfl
  | some lf =>
    rw [List.map_set, hf]
    exact set_eq_self _ _ _ (by rw [List.getElem?_map, h]; rfl)

theorem foldl_modifyLeafAt_map {β : Type} (g : Leaf → β) (F : Nat → Leaf → Leaf)
    (hF : ∀ i lf, g (F i lf) = g lf) :
    ∀ (plist : List Nat) (s : TieState),
      ((plist.foldl (fun st i => modifyLeafAt st i (F i)) s).leaves).map g = s.leaves.map g
  | [], s => rfl
  | i :: plist, s => by
    rw [List.foldl_cons, foldl_modifyLeafAt_map g F hF plist]
    exact modifyLeafList_map g (F i) (hF i) s.leaves i

theorem foldl_modifyLeafAt_nonleaf (F : Nat → Leaf → Leaf) :
    ∀ (plist : List Nat) (s : TieState),
      (plist.foldl (fun st i => modifyLeafAt st i (F i)) s).tied_param = s.tied_param ∧
      (plist.foldl (fun st i => modifyLeafAt st i (F i)) s).label_buf = s.label_buf ∧
      (plist.foldl (fun st i => modifyLeafAt st i (F i)) s).buf_idx = s.buf_idx ∧
      (plist.foldl (fun st i => modifyLeafAt st i (F i)) s).PROPAGATE_VAL = s.PROPAGATE_VAL ∧
      (plist.foldl (fun st i => modifyLeafAt st i (F i)) s).optimizer_copy_transformed =
        s.optimizer_copy_transformed
  | [], s => ⟨rfl, rfl, rfl, rfl, rfl⟩
  | i :: plist, s => foldl_modifyLeafAt_nonleaf F plist (modifyLeafAt s i (F i))

theorem update_label_buf_leaves (s : TieState) :
    (update_label_buf s).leaves = s.leaves ∧
    (update_label_buf s).tied_param = s.tied_param := by
  unfold update_label_buf
  cases s.tied_param <;> exact ⟨rfl, rfl⟩

theorem removeSlots_snd_sublist (labels : List Nat) :
    ∀ (ts : List Nat) (vs : List ℚ), List.Sublist (removeSlots labels ts vs).2 vs
  | [], [] => List.nil_sublist _
  | [], _ :: _ => List.nil_sublist _
  | _ :: _, [] => List.nil_sublist _
  | t :: ts, v :: vs => by
    unfold removeSlots
    by_cases h : t ∈ labels
    · simp only [if_pos h]
      exact (removeSlots_snd_sublist labels ts vs).cons v
    · simp only [if_neg h]
      exact (removeSlots_snd_sublist labels ts vs).cons₂ v

theorem set_labels_leaves_map_vals (s : TieState) (plist : List Nat) (labels : List Nat) :
    (set_labels s plist labels).leaves.map Leaf.vals = s.leaves.map Leaf.vals := by
  unfold set_labels
  by_cases h : labels.length = 1
  · simp only [if_pos h]
    exact foldl_modifyLeafAt_map Leaf.vals
      (fun _ lf => { lf with tie := List.replicate lf.tie.length (labels.headD 0) })
      (fun _ _ => rfl) plist s
  · simp only [if_neg h]
    exact foldl_modifyLeafAt_map Leaf.vals
      (fun _ lf => { lf with tie := labels.take lf.tie.length })
      (fun _ _ => rfl) plist s

theorem set_labels_tied (s : TieState) (plist : List Nat) (labels : List Nat) :
    (set_labels s plist labels).tied_param = s.tied_param := by
  unfold set_labels
  by_cases h : labels.length = 1
  · simp only [if_pos h]
    exact (foldl_modifyLeafAt_nonleaf _ plist s).1
  · simp only [if_neg h]
    exact (foldl_modifyLeafAt_nonleaf _ plist s).1

theorem replace_labels_map_vals (s : TieState) (pairs : List (Nat × Nat)) :
    (replace_labels s pairs).leaves.map Leaf.vals = s.leaves.map Leaf.vals := by
  unfold replace_labels
  simp [List.map_map, Function.comp]

theorem remove_unnecessary_ties_map_vals (s : TieState) :
    (remove_unnecessary_ties s).leaves.map Leaf.vals = s.leaves.map Leaf.vals := by
  unfold remove_unnecessary_ties
  cases h : s.tied_param with
  | none => rfl
  | some t =>
    by_cases h2 : 0 < (t.tie.filter (fun l => decide ((s.label_buf.getD []).count l ≤ 2))).length
    · simp only [if_pos h2]
      rw [replace_labels_map_vals]
      unfold remove_tie_param
      rw [h]
      by_cases h3 :
          (t.tie.filter (fun l => decide ((s.label_buf.getD []).count l ≤ 2))).length =
            t.vals.length
      · simp only [if_pos h3]
      · simp only [if_neg h3]
    · simp only [if_neg h2]

theorem remove_unnecessary_ties_vals_sublist (s : TieState) :
    List.Sublist (remainingVals (remove_unnecessary_ties s)) (remainingVals s) := by
  unfold remove_unnecessary_ties
  cases h : s.tied_param with
  | none => exact List.Sublist.refl _
  | some t =>
    by_cases h2 : 0 < (t.tie.filter (fun l => decide ((s.label_buf.getD []).count l ≤ 2))).length
    · simp only [if_pos h2]
      unfold replace_labels remove_tie_param remainingVals
      rw [h]
      by_cases h3 :
          (t.tie.filter (fun l => decide ((s.label_buf.getD []).count l ≤ 2))).length =
            t.vals.length
      · simp only [if_pos h3]
        exact List.nil_sublist _
      · simp only [if_neg h3]
        exact removeSlots_snd_sublist _ t.tie t.vals
    · simp only [if_neg h2]
      unfold remainingVals
      rw [h]

theorem maskSet_length {α : Type} :
    ∀ (ts : List Nat) (vs : List α) (L : Nat) (x : α),
      (maskSet ts vs L x).length = vs.length
  | ts, [], _, _ => by cases ts <;> rfl
  | [], _ :: _, _, _ => rfl
  | t :: ts, v :: vs, L, x => by
    simp only [maskSet, List.length_cons, maskSet_length ts vs L x]

theorem maskSet_getD {α : Type} (d : α) :
    ∀ (ts : List Nat) (vs : List α) (L : Nat) (x : α) (j : Nat),
      ts.length = vs.length → j < vs.length →
      (maskSet ts vs L x).getD j d = if ts.getD j 0 = L then x else vs.getD j d
  | [], [], _, _, j, _, hj => by simp at hj
  | [], _ :: _, _, _, _, h, _ => by simp at h
  | _ :: _, [], _, _, j, _, hj => by simp at hj
  | t :: ts, v :: vs, L, x, 0, _, _ => by simp [maskSet]
  | t :: ts, v :: vs, L, x, j + 1, h, hj => by
    simp only [maskSet, List.getD_cons_succ]
    exact maskSet_getD d ts vs L x j (by simpa using h) (by simpa using hj)

theorem mem_diffPositions (lb : List Nat) (a : List ℚ) (k j : Nat) :
    j ∈ diffPositions lb a k ↔
      j < a.length ∧ lb.getD j 0 = lb.getD k 0 ∧ a.getD j 0 ≠ a.getD k 0 := by
  unfold diffPositions
  simp [List.mem_filter, List.mem_range, and_assoc]

theorem diffPositions_nodup (lb : List Nat) (a : List ℚ) (k : Nat) :
    (diffPositions lb a k).Nodup :=
  (List.nodup_range _).filter _

theorem replaceLabelsList_cons (p : Nat × Nat) (pairs : List (Nat × Nat)) (tie : List Nat) :
    replaceLabelsList (p :: pairs) tie =
      replaceLabelsList pairs (tie.map (fun l => if l = p.1 then p.2 else l)) := rfl

theorem replaceLabelsList_zero :
    ∀ (ls : List Nat) (tie : List Nat),
      replaceLabelsList (ls.map (fun l => (l, 0))) tie =
        tie.map (fun x => if x ∈ ls then 0 else x)
  | [], tie => by simp [replaceLabelsList]
  | l :: ls, tie => by
    rw [List.map_cons, replaceLabelsList_cons, replaceLabelsList_zero ls, List.map_map]
    refine List.map_congr_left (fun x _ => ?_)
    by_cases hx : x = l
    · subst hx
      by_cases h0 : (0 : Nat) ∈ ls <;> simp [h0, Function.comp]
    · simp [Function.comp, hx, List.mem_cons]

theorem replaceLabelsList_id :
    ∀ (pairs : List (Nat × Nat)) (tie : List Nat),
      (∀ x ∈ tie, ∀ p ∈ pairs, x ≠ p.1) → replaceLabelsList pairs tie = tie
  | [], _, _ => rfl
  | p :: pairs, tie, h => by
    rw [replaceLabelsList_cons]
    have h1 : tie.map (fun l => if l = p.1 then p.2 else l) = tie := by
      refine (List.map_congr_left (fun x hx => ?_)).trans (List.map_id tie)
      exact if_neg (h x hx p (List.mem_cons_self p pairs))
    rw [h1]
    exact replaceLabelsList_id pairs tie
      (fun x hx q hq => h x hx q (List.mem_cons_of_mem p hq))

theorem removeSlots_length (labels : List Nat) :
    ∀ (ts : List Nat) (vs : List ℚ),
      (removeSlots labels ts vs).1.length = (removeSlots labels ts vs).2.length
  | [], _ => rfl
  | _ :: _, [] => rfl
  | t :: ts, v :: vs => by
    unfold removeSlots
    by_cases h : t ∈ labels <;> simp [h, removeSlots_length labels ts vs]

theorem removeSlots_fst (labels : List Nat) :
    ∀ (ts : List Nat) (vs : List ℚ), ts.length = vs.length →
      (removeSlots labels ts vs).1 = ts.filter (fun l => decide (l ∉ labels))
  | [], _, _ => by simp [removeSlots]
  | _ :: _, [], h => by simp at h
  | t :: ts, v :: vs, h => by
    unfold removeSlots
    by_cases hm : t ∈ labels <;>
      simp [hm, List.filter_cons, removeSlots_fst labels ts vs (by simpa using h)]

theorem removeSlots_zip (labels : List Nat) :
    ∀ (ts : List Nat) (vs : List ℚ), ts.length = vs.length →
      (removeSlots labels ts vs).1.zip (removeSlots labels ts vs).2 =
        (ts.zip vs).filter (fun p => decide (p.1 ∉ labels))
  | [], _, _ => by simp [removeSlots]
  | _ :: _, [], h => by simp at h
  | t :: ts, v :: vs, h => by
    unfold removeSlots
    by_cases hm : t ∈ labels <;>
      simp [hm, List.filter_cons, removeSlots_zip labels ts vs (by simpa using h)]

theorem foldl_preserves {β : Type} (g : TieState → β) (F : TieState → Nat → TieState)
    (hF : ∀ st i, g (F st i) = g st) :
    ∀ (plist : List Nat) (s : TieState), g (plist.foldl F s) = g s
  | [], _ => rfl
  | i :: plist, s => (foldl_preserves g F hF plist (F s i)).trans (hF s i)

theorem modifyLeafAt_map {β : Type} (g : Leaf → β) (s : TieState) (i : Nat) (f : Leaf → Leaf)
    (h : i < s.leaves.length) :
    (modifyLeafAt s i f).leaves.map g = (s.leaves.map g).set i (g (f (leafAt s i))) := by
  unfold modifyLeafAt modifyLeafList leafAt
  rw [List.getElem?_eq_getElem h]
  show (s.leaves.set i (f s.leaves[i])).map g = _
  rw [List.map_set, List.getD_eq_getElem _ _ h]

theorem leafAt_modify_self (s : TieState) (i : Nat) (f : Leaf → Leaf)
    (h : i < s.leaves.length) :
    leafAt (modifyLeafAt s i f) i = f (leafAt s i) := by
  unfold modifyLeafAt modifyLeafList leafAt
  rw [List.getElem?_eq_getElem h]
  show (s.leaves.set i (f s.leaves[i])).getD i defaultLeaf = _
  rw [getD_set_self defaultLeaf _ _ _ (by simpa using h), List.getD_eq_getElem _ _ h]

theorem leafAt_modify_ne (s : TieState) (i j : Nat) (f : Leaf → Leaf) (h : i ≠ j) :
    leafAt (modifyLeafAt s i f) j = leafAt s j := by
  unfold modifyLeafAt modifyLeafList leafAt
  cases hx : s.leaves[i]? with
  | none => rfl
  | some lf => exact getD_set_ne defaultLeaf _ _ _ _ h

theorem getD_map_tie : ∀ (ls : List Leaf) (i : Nat),
    (ls.map Leaf.tie).getD i [] = (ls.getD i defaultLeaf).tie
  | [], _ => rfl
  | _ :: _, 0 => rfl
  | _ :: ls, i + 1 => getD_map_tie ls i

theorem getD_map_leafF (F : Leaf → Leaf) (hF : F defaultLeaf = defaultLeaf) :
    ∀ (ls : List Leaf) (i : Nat), (ls.map F).getD i defaultLeaf = F (ls.getD i defaultLeaf)
  | [], _ => hF.symm
  | _ :: _, 0 => rfl
  | _ :: ls, i + 1 => getD_map_leafF F hF ls i

theorem leafAt_tie_eq (s s' : TieState)
    (h : s'.leaves.map Leaf.tie = s.leaves.map Leaf.tie) (i : Nat) :
    (leafAt s' i).tie = (leafAt s i).tie := by
  unfold leafAt
  rw [← getD_map_tie, ← getD_map_tie, h]

theorem modifyLeafAt_map_eq {β : Type} (g : Leaf → β) (f : Leaf → Leaf)
    (hf : ∀ lf, g (f lf) = g lf) (st : TieState) (i : Nat) :
    (modifyLeafAt st i f).leaves.map g = st.leaves.map g :=
  modifyLeafList_map g f hf st.leaves i

theorem foldl_modify_proj (f : Leaf → Leaf) (hf : ∀ lf, (f lf).tie = lf.tie)
    (plist : List Nat) (s : TieState) :
    ((plist.foldl (fun st i => modifyLeafAt st i f) s).leaves.map Leaf.tie =
      s.leaves.map Leaf.tie) ∧
    (plist.foldl (fun st i => modifyLeafAt st i f) s).tied_param = s.tied_param ∧
    (plist.foldl (fun st i => modifyLeafAt st i f) s).PROPAGATE_VAL = s.PROPAGATE_VAL :=
  ⟨foldl_preserves (fun st => st.leaves.map Leaf.tie)
      (fun st i => modifyLeafAt st i f)
      (fun st i => modifyLeafAt_map_eq Leaf.tie f hf st i) plist s,
    foldl_preserves TieState.tied_param (fun st i => modifyLeafAt st i f)
      (fun _ _ => rfl) plist s,
    foldl_preserves TieState.PROPAGATE_VAL (fun st i => modifyLeafAt st i f)
      (fun _ _ => rfl) plist s⟩

theorem sync_val_group_proj (s : TieState) (plist : List Nat) :
    (sync_val_group s plist).2.leaves.map Leaf.tie = s.leaves.map Leaf.tie ∧
    (sync_val_group s plist).2.tied_param = s.tied_param ∧
    (sync_val_group s plist).2.PROPAGATE_VAL = s.PROPAGATE_VAL := by
  have h : (sync_val_group s plist).2 = plist.foldl (fun st i => modifyLeafAt st i
      (fun lf =>
        { lf with vals := List.replicate lf.vals.length (sync_val_group s plist).1 })) s :=
    rfl
  rw [h]
  exact foldl_modify_proj
    (fun lf =>
      { lf with vals := List.replicate lf.vals.length (sync_val_group s plist).1 })
    (fun _ => rfl) plist s

theorem sync_constraint_group_proj (s : TieState) (plist : List Nat) (hastie : Bool)
    (c0 : Option Nat) :
    (sync_constraint_group s plist hastie c0).2.leaves.map Leaf.tie =
      s.leaves.map Leaf.tie ∧
    (sync_constraint_group s plist hastie c0).2.tied_param = s.tied_param := by
  unfold sync_constraint_group
  rcases hc : (if hastie then c0
      else (plist.filterMap (fun i => (leafAt s i).con)).head?) with _ | c
  · cases hastie
    · exact ⟨rfl, rfl⟩
    · have h := foldl_modify_proj (fun lf => { lf with con := none })
        (fun _ => rfl) plist s
      exact ⟨h.1, h.2.1⟩
  · have h := foldl_modify_proj (fun lf => { lf with con := some c })
      (fun _ => rfl) plist s
    exact ⟨h.1, h.2.1⟩

theorem update_label_buf_some (s : TieState) (t : TiedParam) (h : s.tied_param = some t) :
    update_label_buf s = { s with
      label_buf := some (flatTies s.leaves ++ t.tie),
      buf_idx := some (List.range' (flatVals s.leaves).length t.vals.length) } := by
  unfold update_label_buf
  rw [h]

theorem set_slot_vals_some (s : TieState) (t : TiedParam) (L : Nat) (v : ℚ)
    (h : s.tied_param = some t) :
    set_slot_vals s L v =
      { s with tied_param := some { t with vals := maskSet t.tie t.vals L v } } := by
  unfold set_slot_vals
  rw [h]

theorem constrain_slot_label_some (s : TieState) (t : TiedParam) (L c : Nat)
    (h : s.tied_param = some t) :
    constrain_slot_label s L c =
      { s with tied_param := some { t with cons := maskSet t.tie t.cons L (some c) } } := by
  unfold constrain_slot_label
  rw [h]

theorem set_labels_pair (s : TieState) (a b L : Nat) :
    set_labels s [a, b] [L] =
      modifyLeafAt (modifyLeafAt s a
        (fun lf => { lf with tie := List.replicate lf.tie.length L })) b
        (fun lf => { lf with tie := List.replicate lf.tie.length L }) := rfl

theorem le_foldr_max : ∀ (l : List Nat), ∀ x ∈ l, x ≤ l.foldr max 0
  | [], x, hx => absurd hx (List.not_mem_nil x)
  | a :: l, x, hx => by
    rcases List.mem_cons.mp hx with rfl | h
    · exact Nat.le_max_left _ _
    · exact (le_foldr_max l x h).trans (Nat.le_max_right a _)

theorem foldr_max_succ_not_mem (l : List Nat) : l.foldr max 0 + 1 ∉ l :=
  fun h => absurd (le_foldr_max l _ h) (by omega)

theorem maskSet_of_not_mem {α : Type} :
    ∀ (ts : List Nat) (vs : List α) (L : Nat) (x : α), L ∉ ts → maskSet ts vs L x = vs
  | [], vs, _, _, _ => by cases vs <;> rfl
  | _ :: _, [], _, _, _ => rfl
  | t :: ts, v :: vs, L, x, h => by
    simp only [List.mem_cons, not_or] at h
    have hne : ¬ t = L := fun he => h.1 he.symm
    simp [maskSet, hne, maskSet_of_not_mem ts vs L x h.2]

theorem maskSet_append {α : Type} :
    ∀ (ts1 : List Nat) (vs1 : List α) (ts2 : List Nat) (vs2 : List α) (L : Nat) (x : α),
      ts1.length = vs1.length →
      maskSet (ts1 ++ ts2) (vs1 ++ vs2) L x = maskSet ts1 vs1 L x ++ maskSet ts2 vs2 L x
  | [], [], _, _, _, _, _ => rfl
  | [], _ :: _, _, _, _, _, h => by simp at h
  | _ :: _, [], _, _, _, _, h => by simp at h
  | t :: ts, v :: vs, ts2, vs2, L, x, h => by
    show (if t = L then x else v) :: maskSet (ts ++ ts2) (vs ++ vs2) L x = _
    rw [maskSet_append ts vs ts2 vs2 L x (by simpa using h)]
    rfl

theorem removeSlots_keep :
    ∀ (labels ts : List Nat) (vs : List ℚ),
      (∀ x ∈ ts, x ∉ labels) → ts.length = vs.length → removeSlots labels ts vs = (ts, vs)
  | _, [], [], _, _ => rfl
  | _, [], _ :: _, _, h => by simp at h
  | _, _ :: _, [], _, h => by simp at h
  | labels, t :: ts, v :: vs, hmem, h => by
    unfold removeSlots
    rw [removeSlots_keep labels ts vs
      (fun x hx => hmem x (List.mem_cons_of_mem _ hx)) (by simpa using h)]
    simp [hmem t (List.mem_cons_self _ _)]

theorem removeSlots_cons (labels : List Nat) (t : Nat) (ts : List Nat) (v : ℚ)
    (vs : List ℚ) :
    removeSlots labels (t :: ts) (v :: vs) =
      if t ∈ labels then removeSlots labels ts vs
      else (t :: (removeSlots labels ts vs).1, v :: (removeSlots labels ts vs).2) := rfl

theorem removeSlots_append (labels : List Nat) :
    ∀ (ts1 : List Nat) (vs1 : List ℚ) (ts2 : List Nat) (vs2 : List ℚ),
      ts1.length = vs1.length →
      removeSlots labels (ts1 ++ ts2) (vs1 ++ vs2) =
        ((removeSlots labels ts1 vs1).1 ++ (removeSlots labels ts2 vs2).1,
         (removeSlots labels ts1 vs1).2 ++ (removeSlots labels ts2 vs2).2)
  | [], [], ts2, vs2, _ => by simp [removeSlots]
  | [], _ :: _, _, _, h => by simp at h
  | _ :: _, [], _, _, h => by simp at h
  | t :: ts, v :: vs, ts2, vs2, h => by
    rw [List.cons_append, List.cons_append, removeSlots_cons, removeSlots_cons,
      removeSlots_append labels ts vs ts2 vs2 (by simpa using h)]
    by_cases hm : t ∈ labels <;> simp [hm]

theorem eq_of_zip_eq :
    ∀ (ts : List Nat) (v1 v2 : List ℚ),
      ts.length = v1.length → ts.length = v2.length → ts.zip v1 = ts.zip v2 → v1 = v2
  | [], [], [], _, _, _ => rfl
  | [], _ :: _, _, h1, _, _ => by simp at h1
  | [], _, _ :: _, _, h2, _ => by simp at h2
  | _ :: _, [], _, h1, _, _ => by simp at h1
  | _ :: _, _ :: _, [], _, h2, _ => by simp at h2
  | t :: ts, a :: v1, b :: v2, h1, h2, hz => by
    simp only [List.zip_cons_cons, List.cons.injEq, Prod.mk.injEq] at hz
    rw [hz.1.2, eq_of_zip_eq ts v1 v2 (by simpa using h1) (by simpa using h2) hz.2]

theorem mem_joinAll {α : Type} (x : α) :
    ∀ (L : List (List α)), x ∈ joinAll L ↔ ∃ l ∈ L, x ∈ l
  | [] => by simp [joinAll]
  | l :: L => by
    simp [joinAll, List.mem_append, mem_joinAll x L]

/-! ### Claim theorems -/

/-- C10: a change notification whose originating object is the Tie
component itself is ignored entirely: no change check, no value
broadcasting, no gradient collation, and no modification of any state. -/
theorem notification_from_self_is_ignored (s : TieState) :
    parameters_changed_notification s true = s := rfl

/-- C3: tying two previously untied scalar leaves holding 2 and 4 puts
the mean 3 into the new canonical slot and into both leaves. -/
theorem tie_together_mean_scenario :
    remainingVals (tie_together exampleTwoLeaves [0, 1]) = [3] ∧
    (tie_together exampleTwoLeaves [0, 1]).leaves.map Leaf.vals = [[3], [3]] := by
  with_unfolding_all decide

/-- C8: when the two sides of `tie_vector` have unequal element counts
the operation aborts (inside `_get_labels_vector`, before any mutation
of labels, slots, or values) and returns no mutated state. -/
theorem tie_vector_length_mismatch_aborts (s : TieState) (i1 i2 : Nat)
    (h : (leafAt s i1).tie.length ≠ (leafAt s i2).tie.length) :
    tie_vector s i1 i2 = none := by
  unfold tie_vector get_labels_vector
  simp [h]

/-- Witness for C8 at a concrete state with element counts 2 and 1. -/
theorem tie_vector_length_mismatch_aborts_witness :
    tie_vector exampleMismatch 0 1 = none :=
  tie_vector_length_mismatch_aborts exampleMismatch 0 1 (by decide)

/-- C2: at a position where exactly one side is already tied (leaf 0
untied, leaf 1 tied under label 1), `tie_vector` does not make the
untied side adopt label 1; instead it allocates a brand-new label 2 and
canonical slot for that position and overwrites both sides with it,
because `expandlist` is computed from `label1*label2==0` (at least one
side untied) and the adopted labels are clobbered by
`labellist[expandlist] = tie_labels`. -/
theorem tie_vector_one_side_tied_gets_fresh_label :
    (tie_vector exampleOneSideTied 0 1).map
        (fun s => (s.leaves.map Leaf.tie, remainingTies s)) =
      some ([[2], [2], [1], [1]], [1, 2]) := by
  with_unfolding_all decide

/-- C9: `untie` never modifies any leaf's values, and the surviving
canonical slots keep their values (pruning only deletes slot entries);
only tie labels and the cached buffers change. -/
theorem untie_preserves_leaf_values (s : TieState) (plist : List Nat) :
    (untie s plist).leaves.map Leaf.vals = s.leaves.map Leaf.vals ∧
    List.Sublist (remainingVals (untie s plist)) (remainingVals s) := by
  unfold untie
  constructor
  · rw [(update_label_buf_leaves _).1, remove_unnecessary_ties_map_vals,
      (update_label_buf_leaves _).1, set_labels_leaves_map_vals]
  · have h1 : remainingVals (update_label_buf (remove_unnecessary_ties
        (update_label_buf (set_labels s plist [0])))) =
        remainingVals (remove_unnecessary_ties (update_label_buf (set_labels s plist [0]))) := by
      unfold remainingVals
      rw [(update_label_buf_leaves _).2]
    have h2 : remainingVals (update_label_buf (set_labels s plist [0])) =
        remainingVals s := by
      unfold remainingVals
      rw [(update_label_buf_leaves _).2, set_labels_tied]
    rw [h1, ← h2]
    exact remove_unnecessary_ties_vals_sublist _

/-- C4: for the group whose canonical slot sits at flattened position
`k`, one pass of the change-check body behaves as follows: if every
position carrying the group's label already equals the slot's value, the
vector and flag are unchanged; if exactly one position differs, its
value is broadcast to every group position including the slot
(last-writer-wins); if two or more positions differ, the slot's value is
broadcast to all group positions; and the returned flag records whether
any correction was required. -/
theorem check_change_cases (lb : List Nat) (a : List ℚ) (ch : Bool) (k : Nat)
    (hlen : lb.length = a.length) :
    ((∀ j, j < a.length → lb.getD j 0 = lb.getD k 0 → a.getD j 0 = a.getD k 0) →
      check_step lb (a, ch) k = (a, ch)) ∧
    (∀ j0, j0 < a.length → lb.getD j0 0 = lb.getD k 0 → a.getD j0 0 ≠ a.getD k 0 →
      (∀ j, j < a.length → lb.getD j 0 = lb.getD k 0 → a.getD j 0 ≠ a.getD k 0 → j = j0) →
      (check_step lb (a, ch) k).2 = true ∧
      ∀ j, j < a.length →
        (check_step lb (a, ch) k).1.getD j 0 =
          if lb.getD j 0 = lb.getD k 0 then a.getD j0 0 else a.getD j 0) ∧
    (∀ j1 j2, j1 < a.length → j2 < a.length → j1 ≠ j2 →
      lb.getD j1 0 = lb.getD k 0 → a.getD j1 0 ≠ a.getD k 0 →
      lb.getD j2 0 = lb.getD k 0 → a.getD j2 0 ≠ a.getD k 0 →
      (check_step lb (a, ch) k).2 = true ∧
      ∀ j, j < a.length →
        (check_step lb (a, ch) k).1.getD j 0 =
          if lb.getD j 0 = lb.getD k 0 then a.getD k 0 else a.getD j 0) ∧
    ((check_step lb (a, ch) k).2 = (ch || !(diffPositions lb a k).isEmpty)) := by
  refine ⟨?_, ?_, ?_, ?_⟩
  · intro h
    have hds : diffPositions lb a k = [] := by
      rw [List.eq_nil_iff_forall_not_mem]
      intro j hj
      rw [mem_diffPositions] at hj
      exact hj.2.2 (h j hj.1 hj.2.1)
    simp [check_step, hds]
  · intro j0 hj0 hl0 hv0 huniq
    have hmem : j0 ∈ diffPositions lb a k := (mem_diffPositions lb a k j0).2 ⟨hj0, hl0, hv0⟩
    have hall : ∀ x ∈ diffPositions lb a k, x = j0 := by
      intro x hx
      rw [mem_diffPositions] at hx
      exact huniq x hx.1 hx.2.1 hx.2.2
    have hds : diffPositions lb a k = [j0] := by
      have hnd := diffPositions_nodup lb a k
      cases hd : diffPositions lb a k with
      | nil => rw [hd] at hmem; cases hmem
      | cons x xs =>
        rw [hd] at hall hnd
        have hx : x = j0 := hall x (List.mem_cons_self x xs)
        cases hxs : xs with
        | nil => rw [hx]
        | cons y ys =>
          exfalso
          have hy : y = j0 := hall y (by
            rw [hxs]; exact List.mem_cons_of_mem _ (List.mem_cons_self y ys))
          rw [List.nodup_cons] at hnd
          refine hnd.1 ?_
          rw [hxs, hx, ← hy]
          exact List.mem_cons_self y ys
    constructor
    · simp [check_step, hds]
    · intro j hj
      have : check_step lb (a, ch) k =
          (maskSet lb a (lb.getD k 0) (a.getD j0 0), true) := by
        simp [check_step, hds]
      rw [this]
      exact maskSet_getD 0 lb a (lb.getD k 0) (a.getD j0 0) j hlen hj
  · intro j1 j2 hj1 hj2 hne hl1 hv1 hl2 hv2
    have hm1 : j1 ∈ diffPositions lb a k := (mem_diffPositions lb a k j1).2 ⟨hj1, hl1, hv1⟩
    have hm2 : j2 ∈ diffPositions lb a k := (mem_diffPositions lb a k j2).2 ⟨hj2, hl2, hv2⟩
    have h2 : 2 ≤ (diffPositions lb a k).length := by
      rcases hd : diffPositions lb a k with _ | ⟨x, _ | ⟨y, ys⟩⟩
      · rw [hd] at hm1; cases hm1
      · rw [hd] at hm1 hm2
        simp only [List.mem_cons, List.not_mem_nil, or_false] at hm1 hm2
        exact absurd (hm1.trans hm2.symm) hne
      · simp
    have hne0 : ¬ (diffPositions lb a k).length = 0 := by omega
    have hne1 : ¬ (diffPositions lb a k).length = 1 := by omega
    constructor
    · simp [check_step, hne0, hne1]
    · intro j hj
      have : check_step lb (a, ch) k =
          (maskSet lb a (lb.getD k 0) (a.getD k 0), true) := by
        simp [check_step, hne0, hne1]
      rw [this]
      exact maskSet_getD 0 lb a (lb.getD k 0) (a.getD k 0) j hlen hj
  · cases hd : diffPositions lb a k with
    | nil => simp [check_step, hd]
    | cons x xs => cases xs <;> simp [check_step, hd]

/-- Witness for C4 on a concrete two-member group: all members already
equal the slot, so the step is a no-op. -/
theorem check_change_cases_witness :
    check_step [0, 1, 1] ([5, 2, 2], false) 2 = ([5, 2, 2], false) :=
  (check_change_cases [0, 1, 1] [5, 2, 2] false 2 (by decide)).1 (by
    intro j hj hl
    have hj3 : j < 3 := by simpa using hj
    interval_cases j
    · exact absurd hl (by decide)
    · rfl
    · rfl)

theorem remove_unnecessary_ties_spec (s : TieState) (t : TiedParam) (lb : List Nat)
    (ht : s.tied_param = some t) (hlb : s.label_buf = some lb) (hwf : TiedWF t) :
    remainingTies (remove_unnecessary_ties s) =
      t.tie.filter (fun l => decide (2 < lb.count l)) ∧
    (remainingTies (remove_unnecessary_ties s)).zip
        (remainingVals (remove_unnecessary_ties s)) =
      (t.tie.zip t.vals).filter (fun p => decide (2 < lb.count p.1)) ∧
    (remove_unnecessary_ties s).leaves = s.leaves.map (fun lf =>
      { lf with tie :=
          lf.tie.map (fun l => if l ∈ t.tie ∧ lb.count l ≤ 2 then 0 else l) }) ∧
    (remainingTies (remove_unnecessary_ties s)).length =
      (remainingVals (remove_unnecessary_ties s)).length ∧
    (t.tie ≠ [] → t.tie.filter (fun l => decide (2 < lb.count l)) = [] →
      (remove_unnecessary_ties s).tied_param = none) := by
  obtain ⟨hlen, hg, hnd, hpos⟩ := hwf
  have hbuf : s.label_buf.getD [] = lb := by rw [hlb]; rfl
  by_cases hc : 0 < (t.tie.filter (fun l => decide (lb.count l ≤ 2))).length
  · have hrut : remove_unnecessary_ties s =
        replace_labels
          (remove_tie_param s (t.tie.filter (fun l => decide (lb.count l ≤ 2))))
          ((t.tie.filter (fun l => decide (lb.count l ≤ 2))).map (fun l => (l, 0))) := by
      unfold remove_unnecessary_ties
      rw [ht]
      simp only [hbuf, if_pos hc]
    have hleafpart : ∀ (X : TieState), X.leaves = s.leaves →
        (replace_labels X
          ((t.tie.filter (fun l => decide (lb.count l ≤ 2))).map (fun l => (l, 0)))).leaves =
          s.leaves.map (fun lf =>
            { lf with tie :=
                lf.tie.map (fun l => if l ∈ t.tie ∧ lb.count l ≤ 2 then 0 else l) }) := by
      intro X hX
      unfold replace_labels
      simp only [hX]
      refine List.map_congr_left (fun lf _ => ?_)
      rw [replaceLabelsList_zero]
      have : lf.tie.map (fun x => if x ∈ t.tie.filter (fun l => decide (lb.count l ≤ 2))
          then 0 else x) =
          lf.tie.map (fun l => if l ∈ t.tie ∧ lb.count l ≤ 2 then 0 else l) := by
        refine List.map_congr_left (fun x _ => ?_)
        by_cases hx : x ∈ t.tie ∧ lb.count x ≤ 2
        · rw [if_pos hx, if_pos]
          rw [List.mem_filter]
          exact ⟨hx.1, by simpa using hx.2⟩
        · rw [if_neg hx, if_neg]
          rw [List.mem_filter]
          intro hmem
          exact hx ⟨hmem.1, by simpa using hmem.2⟩
      rw [this]
    by_cases hall :
        (t.tie.filter (fun l => decide (lb.count l ≤ 2))).length = t.vals.length
    · have hremove :
          remove_tie_param s (t.tie.filter (fun l => decide (lb.count l ≤ 2))) =
            { s with tied_param := none } := by
        unfold remove_tie_param
        rw [ht]
        simp only [if_pos hall]
      have hfilterall : t.tie.filter (fun l => decide (lb.count l ≤ 2)) = t.tie :=
        (List.filter_sublist t.tie).eq_of_length (by rw [hall, hlen])
      have hsmall : ∀ l ∈ t.tie, lb.count l ≤ 2 := by
        intro l hl
        simpa using List.filter_eq_self.mp hfilterall l hl
      have hties : remainingTies (remove_unnecessary_ties s) = [] := by
        rw [hrut, hremove]; rfl
      have hvals : remainingVals (remove_unnecessary_ties s) = [] := by
        rw [hrut, hremove]; rfl
      refine ⟨?_, ?_, ?_, ?_, ?_⟩
      · rw [hties]
        symm
        rw [List.filter_eq_nil_iff]
        intro a ha
        simpa using hsmall a ha
      · rw [hties, hvals]
        symm
        simp only [List.zip_nil_right]
        rw [List.filter_eq_nil_iff]
        intro p hp
        simpa using hsmall p.1 (List.of_mem_zip hp).1
      · rw [hrut]
        exact hleafpart _ (by rw [hremove])
      · rw [hties, hvals]
        rfl
      · intro _ _
        rw [hrut, hremove]
        rfl
    · have hremove :
          remove_tie_param s (t.tie.filter (fun l => decide (lb.count l ≤ 2))) =
            { s with tied_param := some {
                vals := (removeSlots (t.tie.filter (fun l => decide (lb.count l ≤ 2)))
                  t.tie t.vals).2,
                grads := List.replicate (removeSlots
                  (t.tie.filter (fun l => decide (lb.count l ≤ 2))) t.tie t.vals).1.length 0,
                tie := (removeSlots (t.tie.filter (fun l => decide (lb.count l ≤ 2)))
                  t.tie t.vals).1,
                cons := List.replicate (removeSlots
                  (t.tie.filter (fun l => decide (lb.count l ≤ 2))) t.tie t.vals).1.length
                  none } } := by
        unfold remove_tie_param
        rw [ht]
        simp only [if_neg hall]
      have hfst := removeSlots_fst (t.tie.filter (fun l => decide (lb.count l ≤ 2)))
        t.tie t.vals hlen
      have hid : replaceLabelsList
          ((t.tie.filter (fun l => decide (lb.count l ≤ 2))).map (fun l => (l, 0)))
          (removeSlots (t.tie.filter (fun l => decide (lb.count l ≤ 2))) t.tie t.vals).1 =
          (removeSlots (t.tie.filter (fun l => decide (lb.count l ≤ 2))) t.tie t.vals).1 := by
        refine replaceLabelsList_id _ _ (fun x hx p hp => ?_)
        rw [hfst, List.mem_filter] at hx
        have hx2 := of_decide_eq_true hx.2
        obtain ⟨a, ha, rfl⟩ := List.mem_map.mp hp
        intro hxa
        exact hx2 (by rw [hxa]; exact ha)
      have hcongr : ∀ l ∈ t.tie,
          (decide (l ∉ t.tie.filter (fun l => decide (lb.count l ≤ 2)))) =
            (decide (2 < lb.count l)) := by
        intro l hl
        by_cases h2 : lb.count l ≤ 2
        · simp [List.mem_filter, hl, h2, Nat.not_lt.mpr h2]
        · have h3 : 2 < lb.count l := not_le.mp h2
          simp [List.mem_filter, h2, h3]
      have hties : remainingTies (remove_unnecessary_ties s) =
          t.tie.filter (fun l => decide (2 < lb.count l)) := by
        rw [hrut, hremove]
        show replaceLabelsList _ _ = _
        rw [hid, hfst]
        exact List.filter_congr hcongr
      have hvals : remainingVals (remove_unnecessary_ties s) =
          (removeSlots (t.tie.filter (fun l => decide (lb.count l ≤ 2)))
            t.tie t.vals).2 := by
        rw [hrut, hremove]; rfl
      have hties2 : remainingTies (remove_unnecessary_ties s) =
          (removeSlots (t.tie.filter (fun l => decide (lb.count l ≤ 2)))
            t.tie t.vals).1 := by
        rw [hrut, hremove]
        show replaceLabelsList _ _ = _
        exact hid
      refine ⟨hties, ?_, ?_, ?_, ?_⟩
      · rw [hties2, hvals, removeSlots_zip _ _ _ hlen]
        refine List.filter_congr (fun p hp => ?_)
        exact hcongr p.1 (List.of_mem_zip hp).1
      · rw [hrut]
        exact hleafpart _ (by rw [hremove])
      · rw [hties2, hvals]
        exact removeSlots_length _ _ _
      · intro _ hempty
        have hub : ∀ l ∈ t.tie, lb.count l ≤ 2 := by
          intro l hl
          have hnl := List.filter_eq_nil_iff.mp hempty l hl
          exact Nat.le_of_not_lt (by simpa using hnl)
        have hfeq : t.tie.filter (fun l => decide (lb.count l ≤ 2)) = t.tie :=
          List.filter_eq_self.mpr (fun a ha => by simpa using hub a ha)
        exact absurd (by rw [hfeq]; exact hlen) hall
  · have hrut : remove_unnecessary_ties s = s := by
      unfold remove_unnecessary_ties
      rw [ht]
      simp only [hbuf, if_neg hc]
    have hbig : ∀ l ∈ t.tie, 2 < lb.count l := by
      intro l hl
      by_contra h2
      have : l ∈ t.tie.filter (fun l => decide (lb.count l ≤ 2)) := by
        rw [List.mem_filter]
        exact ⟨hl, by simpa using Nat.le_of_not_lt h2⟩
      have : 0 < (t.tie.filter (fun l => decide (lb.count l ≤ 2))).length :=
        List.length_pos.mpr (fun he => by rw [he] at this; cases this)
      exact hc this
    have hrem : remainingTies s = t.tie := by unfold remainingTies; rw [ht]
    have hremv : remainingVals s = t.vals := by unfold remainingVals; rw [ht]
    refine ⟨?_, ?_, ?_, ?_, ?_⟩
    · rw [hrut, hrem]
      symm
      rw [List.filter_eq_self]
      intro a ha
      simpa using hbig a ha
    · rw [hrut, hrem, hremv]
      symm
      rw [List.filter_eq_self]
      intro p hp
      simpa using hbig p.1 (List.of_mem_zip hp).1
    · rw [hrut]
      symm
      refine List.map_id'' (fun lf => ?_) s.leaves
      have hin : lf.tie.map (fun l => if l ∈ t.tie ∧ lb.count l ≤ 2 then 0 else l) =
          lf.tie := by
        refine List.map_id'' (fun x => ?_) lf.tie
        rw [if_neg]
        rintro ⟨hx1, hx2⟩
        exact absurd hx2 (Nat.not_le.mpr (hbig x hx1))
      rw [hin]
    · rw [hrut, hrem, hremv]
      exact hlen
    · intro hne hempty
      have hfeq : t.tie.filter (fun l => decide (2 < lb.count l)) = t.tie :=
        List.filter_eq_self.mpr (fun a ha => by simpa using hbig a ha)
      exact absurd (hfeq.symm.trans hempty) hne

/-- C6: pruning removes exactly the slots whose label occurs at most
twice in the label buffer (the slot's own position plus tied leaf
positions); the surviving slots keep their labels, values and order, and
every occurrence of a pruned label on a leaf is reset to 0 while other
leaf labels are untouched. -/
theorem prune_removes_small_groups (s : TieState) (t : TiedParam) (lb : List Nat)
    (ht : s.tied_param = some t) (hlb : s.label_buf = some lb) (hwf : TiedWF t) :
    remainingTies (remove_unnecessary_ties s) =
      t.tie.filter (fun l => decide (2 < lb.count l)) ∧
    (remainingTies (remove_unnecessary_ties s)).zip
        (remainingVals (remove_unnecessary_ties s)) =
      (t.tie.zip t.vals).filter (fun p => decide (2 < lb.count p.1)) ∧
    (remove_unnecessary_ties s).leaves = s.leaves.map (fun lf =>
      { lf with tie :=
          lf.tie.map (fun l => if l ∈ t.tie ∧ lb.count l ≤ 2 then 0 else l) }) := by
  obtain ⟨h1, h2, h3, -, -⟩ := remove_unnecessary_ties_spec s t lb ht hlb hwf
  exact ⟨h1, h2, h3⟩

/-- Witness for C6 on a concrete state: label 1 occurs four times in the
buffer, so its slot survives pruning. -/
theorem prune_removes_small_groups_witness :
    remainingTies (remove_unnecessary_ties exampleOneSideTied) = [1] :=
  (prune_removes_small_groups exampleOneSideTied ⟨[3], [0], [1], [none]⟩ [0, 1, 1, 1, 1]
    rfl rfl (by decide)).1.trans (by decide)

theorem maskSum_append :
    ∀ (ts1 : List Nat) (vs1 : List ℚ) (ts2 : List Nat) (vs2 : List ℚ) (L : Nat),
      ts1.length = vs1.length →
      maskSum (ts1 ++ ts2) (vs1 ++ vs2) L = maskSum ts1 vs1 L + maskSum ts2 vs2 L
  | [], [], ts2, vs2, L, _ => by simp [maskSum]
  | [], _ :: _, _, _, _, h => by simp at h
  | _ :: _, [], _, _, _, h => by simp at h
  | t :: ts, v :: vs, ts2, vs2, L, h => by
    show (if t = L then v else 0) + maskSum (ts ++ ts2) (vs ++ vs2) L = _
    rw [maskSum_append ts vs ts2 vs2 L (by simpa using h)]
    show _ = (if t = L then v else 0) + maskSum ts vs L + maskSum ts2 vs2 L
    ring

theorem maskSum_of_not_mem :
    ∀ (ts : List Nat) (vs : List ℚ) (L : Nat), L ∉ ts → maskSum ts vs L = 0
  | [], vs, _, _ => by cases vs <;> rfl
  | _ :: _, [], _, _ => rfl
  | t :: ts, v :: vs, L, h => by
    simp only [List.mem_cons, not_or] at h
    have hne : ¬ t = L := fun he => h.1 he.symm
    simp [maskSum, hne, maskSum_of_not_mem ts vs L h.2]

theorem maskSum_single :
    ∀ (ts : List Nat) (vs : List ℚ) (L : Nat) (i : Nat),
      ts.Nodup → ts.length = vs.length → i < ts.length → ts.getD i 0 = L →
      maskSum ts vs L = vs.getD i 0
  | [], _, _, i, _, _, hi, _ => by simp at hi
  | _ :: _, [], _, _, _, h, _, _ => by simp at h
  | t :: ts, v :: vs, L, 0, hnd, _, _, hL => by
    simp only [List.getD_cons_zero] at hL
    subst hL
    rw [List.nodup_cons] at hnd
    simp [maskSum, maskSum_of_not_mem ts vs t hnd.1]
  | t :: ts, v :: vs, L, i + 1, hnd, h, hi, hL => by
    simp only [List.getD_cons_succ] at hL
    rw [List.nodup_cons] at hnd
    have hi' : i < ts.length := by simpa using hi
    have hmemL : L ∈ ts := by
      rw [← hL, List.getD_eq_getElem _ _ hi']
      exact List.getElem_mem _
    have htne : ¬ t = L := fun he => hnd.1 (he ▸ hmemL)
    simp [maskSum, htne,
      maskSum_single ts vs L i hnd.2 (by simpa using h) hi' hL]

theorem joinAll_length_congr {α β : Type} :
    ∀ (ls : List Leaf) (f : Leaf → List α) (g : Leaf → List β),
      (∀ lf ∈ ls, (f lf).length = (g lf).length) →
      (joinAll (ls.map f)).length = (joinAll (ls.map g)).length
  | [], _, _, _ => rfl
  | lf :: ls, f, g, h => by
    simp only [List.map_cons, joinAll, List.length_append,
      joinAll_length_congr ls f g (fun x hx => h x (List.mem_cons_of_mem _ hx)),
      h lf (List.mem_cons_self lf ls)]

theorem flatTies_length (ls : List Leaf) (h : LeavesWF ls) :
    (flatTies ls).length = (flatVals ls).length :=
  joinAll_length_congr ls Leaf.tie Leaf.vals (fun lf hl => (h lf hl).1)

theorem flatGrads_length (ls : List Leaf) (h : LeavesWF ls) :
    (flatGrads ls).length = (flatVals ls).length :=
  joinAll_length_congr ls Leaf.grads Leaf.vals (fun lf hl => (h lf hl).2)

theorem collate_fold_spec (lbL stie : List Nat) (gl : List ℚ) (m : Nat)
    (hL : lbL.length = gl.length) (hnd : stie.Nodup) (hm : stie.length = m) :
    ∀ (is : List Nat) (g : List ℚ),
      is.Nodup → (∀ i ∈ is, i < stie.length) →
      g.length = gl.length + stie.length →
      g.take gl.length = gl →
      (∀ i ∈ is, g.getD (gl.length + i) 0 = 0) →
      (is.foldl (fun g2 i => g2.set (gl.length + i)
          (maskSum (lbL ++ stie) g2
            ((lbL ++ stie).getD ((List.range' gl.length m).getD i 0) 0))) g).length =
        g.length ∧
      (is.foldl (fun g2 i => g2.set (gl.length + i)
          (maskSum (lbL ++ stie) g2
            ((lbL ++ stie).getD ((List.range' gl.length m).getD i 0) 0))) g).take gl.length =
        gl ∧
      (∀ i, i ∉ is →
        (is.foldl (fun g2 i => g2.set (gl.length + i)
          (maskSum (lbL ++ stie) g2
            ((lbL ++ stie).getD ((List.range' gl.length m).getD i 0) 0))) g).getD
          (gl.length + i) 0 = g.getD (gl.length + i) 0) ∧
      (∀ i ∈ is,
        (is.foldl (fun g2 i => g2.set (gl.length + i)
          (maskSum (lbL ++ stie) g2
            ((lbL ++ stie).getD ((List.range' gl.length m).getD i 0) 0))) g).getD
          (gl.length + i) 0 = maskSum lbL gl (stie.getD i 0)) := by
  intro is
  induction is with
  | nil =>
    intro g _ _ _ htake _
    exact ⟨rfl, htake, fun i _ => rfl, by simp⟩
  | cons i0 rest ih =>
    intro g hnd2 hbound hglen htake hzero
    rw [List.nodup_cons] at hnd2
    have hi0 : i0 < stie.length := hbound i0 (List.mem_cons_self _ _)
    have hrange : (List.range' gl.length m).getD i0 0 = gl.length + i0 :=
      getD_range' _ _ _ (hm ▸ hi0)
    have hlab : (lbL ++ stie).getD (gl.length + i0) 0 = stie.getD i0 0 := by
      rw [List.getD_append_right _ _ _ _ (by omega : lbL.length ≤ gl.length + i0)]
      congr 1
      omega
    have hsplit : maskSum (lbL ++ stie) g (stie.getD i0 0) =
        maskSum lbL gl (stie.getD i0 0) + g.getD (gl.length + i0) 0 := by
      conv_lhs => rw [← List.take_append_drop gl.length g]
      rw [maskSum_append lbL (g.take gl.length) stie (g.drop gl.length) _
        (by rw [hL, List.length_take]; omega)]
      rw [htake]
      congr 1
      rw [maskSum_single stie (g.drop gl.length) _ i0 hnd
        (by rw [List.length_drop, hglen]; omega) hi0 rfl]
      exact getD_drop 0 g gl.length i0
    have hzero0 : g.getD (gl.length + i0) 0 = 0 := hzero i0 (List.mem_cons_self _ _)
    have hv : g.set (gl.length + i0)
        (maskSum (lbL ++ stie) g
          ((lbL ++ stie).getD ((List.range' gl.length m).getD i0 0) 0)) =
        g.set (gl.length + i0) (maskSum lbL gl (stie.getD i0 0)) := by
      rw [hrange, hlab, hsplit, hzero0, add_zero]
    have hg1len : (g.set (gl.length + i0)
        (maskSum (lbL ++ stie) g
          ((lbL ++ stie).getD ((List.range' gl.length m).getD i0 0) 0))).length =
        g.length := List.length_set g _ _
    have htake1 : (g.set (gl.length + i0)
        (maskSum (lbL ++ stie) g
          ((lbL ++ stie).getD ((List.range' gl.length m).getD i0 0) 0))).take gl.length =
        gl := by
      rw [hv, List.set_take, List.set_eq_of_length_le
        (by rw [List.length_take]; omega)]
      exact htake
    have hzero1 : ∀ i ∈ rest, (g.set (gl.length + i0)
        (maskSum (lbL ++ stie) g
          ((lbL ++ stie).getD ((List.range' gl.length m).getD i0 0) 0))).getD
        (gl.length + i) 0 = 0 := by
      intro i hi
      rw [getD_set_ne 0 g _ _ _
        (by have : i ≠ i0 := fun he => hnd2.1 (he ▸ hi); omega)]
      exact hzero i (List.mem_cons_of_mem _ hi)
    obtain ⟨ih1, ih2, ih3, ih4⟩ := ih
      (g.set (gl.length + i0)
        (maskSum (lbL ++ stie) g
          ((lbL ++ stie).getD ((List.range' gl.length m).getD i0 0) 0)))
      hnd2.2 (fun i hi => hbound i (List.mem_cons_of_mem _ hi))
      (by rw [hg1len]; exact hglen) htake1 hzero1
    refine ⟨?_, ?_, ?_, ?_⟩
    · rw [List.foldl_cons]
      exact ih1.trans hg1len
    · rw [List.foldl_cons]
      exact ih2
    · intro i hi
      have hirest : i ∉ rest := fun hr => hi (List.mem_cons_of_mem _ hr)
      have hine : i ≠ i0 := fun he => hi (he ▸ List.mem_cons_self _ _)
      rw [List.foldl_cons, ih3 i hirest, getD_set_ne 0 g _ _ _ (by omega)]
    · intro i hi
      rcases List.mem_cons.mp hi with rfl | hir
      · rw [List.foldl_cons, ih3 i hnd2.1, hv,
          getD_set_self 0 g _ _ (by omega)]
      · rw [List.foldl_cons]
        exact ih4 i hir

/-- C5: after `collate_gradient`, for every active tie group the
canonical slot's gradient equals the sum of the gradients of all of that
group's raw member (leaf) positions; the slot labels and values are
untouched. -/
theorem collate_gradient_sums (s : TieState) (t : TiedParam)
    (ht : s.tied_param = some t) (hl : LeavesWF s.leaves)
    (hlen : t.tie.length = t.vals.length) (hnd : t.tie.Nodup)
    (hlb : s.label_buf = some (flatTies s.leaves ++ t.tie))
    (hbi : s.buf_idx = some (List.range' (flatVals s.leaves).length t.vals.length)) :
    ∃ t', (collate_gradient s).tied_param = some t' ∧ t'.tie = t.tie ∧ t'.vals = t.vals ∧
      t'.grads.length = t.vals.length ∧
      ∀ i, i < t.vals.length →
        t'.grads.getD i 0 =
          maskSum (flatTies s.leaves) (flatGrads s.leaves) (t.tie.getD i 0) := by
  have hbase : (flatVals s.leaves).length = (flatGrads s.leaves).length :=
    (flatGrads_length s.leaves hl).symm
  obtain ⟨key1, key2, key3, key4⟩ := collate_fold_spec (flatTies s.leaves) t.tie
    (flatGrads s.leaves) t.vals.length
    ((flatTies_length s.leaves hl).trans (flatGrads_length s.leaves hl).symm) hnd hlen
    (List.range t.vals.length)
    (flatGrads s.leaves ++ List.replicate t.vals.length 0)
    (List.nodup_range _)
    (fun i hi => by rw [hlen]; exact List.mem_range.mp hi)
    (by rw [List.length_append, List.length_replicate, hlen])
    (List.take_left _ _)
    (fun i _ => by
      rw [List.getD_append_right _ _ _ _ (by omega : (flatGrads s.leaves).length ≤
        (flatGrads s.leaves).length + i)]
      exact getD_replicate_zero _ _)
  unfold collate_gradient
  rw [ht]
  simp only [hlb, hbi, Option.getD_some, hbase]
  refine ⟨_, rfl, rfl, rfl, ?_, ?_⟩
  · rw [List.length_take, List.length_drop, key1, List.length_append,
      List.length_replicate]
    omega
  · intro i hi
    rw [getD_take 0 _ _ _ hi, getD_drop, key4 i (List.mem_range.mpr hi)]

theorem modifyLeafAt_length (s : TieState) (i : Nat) (f : Leaf → Leaf) :
    (modifyLeafAt s i f).leaves.length = s.leaves.length := by
  unfold modifyLeafAt modifyLeafList
  cases h : s.leaves[i]? <;> simp

theorem set_slot_vals_leaves (s : TieState) (L : Nat) (v : ℚ) :
    (set_slot_vals s L v).leaves = s.leaves := by
  unfold set_slot_vals
  cases s.tied_param <;> rfl

theorem constrain_slot_label_leaves (s : TieState) (L c : Nat) :
    (constrain_slot_label s L c).leaves = s.leaves := by
  unfold constrain_slot_label
  cases s.tied_param <;> rfl

theorem tie_together_pair_shape (s : TieState) (a b : Nat)
    (ha : a < s.leaves.length) (hb : b < s.leaves.length) (hab : a ≠ b)
    (hta : (leafAt s a).tie = [0]) (htb : (leafAt s b).tie = [0])
    (holen : (remainingTies s).length = (remainingVals s).length) :
    ∃ (v : ℚ) (cF : List (Option Nat)),
      (tie_together s [a, b]).leaves.map Leaf.tie =
        ((s.leaves.map Leaf.tie).set a [(remainingTies s).foldr max 0 + 1]).set b
          [(remainingTies s).foldr max 0 + 1] ∧
      (tie_together s [a, b]).tied_param = some
        ⟨remainingVals s ++ [v],
         List.replicate ((remainingVals s).length + 1) 0,
         remainingTies s ++ [(remainingTies s).foldr max 0 + 1], cF⟩ := by
  have hfr : ((remainingTies s).foldr max 0 + 1) ∉ remainingTies s :=
    foldr_max_succ_not_mem _
  have hlabels : get_labels s [a, b] = [0] := by
    show npUnique ((leafAt s a).tie ++ ((leafAt s b).tie ++ [])) = [0]
    rw [hta, htb]
    rfl
  have hs1proj := sync_val_group_proj s [a, b]
  have hexp : expand_tie_param (sync_val_group s [a, b]).2 1 =
      ([(remainingTies s).foldr max 0 + 1], [(remainingVals s).length],
       { (sync_val_group s [a, b]).2 with tied_param := some ⟨remainingVals s ++ [0],
          List.replicate ((remainingVals s).length + 1) 0,
          remainingTies s ++ [(remainingTies s).foldr max 0 + 1],
          List.replicate ((remainingVals s).length + 1) none⟩ }) := by
    unfold expand_tie_param
    rw [hs1proj.2.1]
    cases h : s.tied_param with
    | none =>
      simp [remainingTies, remainingVals, h]
    | some t =>
      simp [remainingTies, remainingVals, h, List.range'_one]
  have hs1len : (sync_val_group s [a, b]).2.leaves.length = s.leaves.length := by
    have := congrArg List.length hs1proj.1
    simpa using this
  simp only [tie_together, hlabels, reduceIte]
  rw [hexp]
  dsimp only
  rw [set_labels_pair]
  set fr := (remainingTies s).foldr max 0 + 1 with hfrdef
  set tN : TiedParam :=
    ⟨remainingVals s ++ [0], List.replicate ((remainingVals s).length + 1) 0,
     remainingTies s ++ [fr], List.replicate ((remainingVals s).length + 1) none⟩
    with htN
  set E : TieState := { (sync_val_group s [a, b]).2 with tied_param := some tN } with hE
  set fA : Leaf → Leaf := fun lf => { lf with tie := List.replicate lf.tie.length fr }
    with hfA
  set S2 : TieState := modifyLeafAt (modifyLeafAt E a fA) b fA with hS2
  have hElen : E.leaves.length = s.leaves.length := hs1len
  have haE : a < E.leaves.length := by rw [hElen]; exact ha
  have hbE : b < E.leaves.length := by rw [hElen]; exact hb
  have hbE2 : b < (modifyLeafAt E a fA).leaves.length := by
    show b < (modifyLeafList E.leaves a fA).length
    unfold modifyLeafList
    cases h : E.leaves[a]? with
    | none => exact hbE
    | some lf => simpa using hbE
  have hEa : (leafAt E a).tie = [0] := by
    have h1 : (leafAt E a).tie = (leafAt (sync_val_group s [a, b]).2 a).tie := rfl
    rw [h1]
    exact (leafAt_tie_eq s _ hs1proj.1 a).trans hta
  have hEb : (leafAt E b).tie = [0] := by
    have h1 : (leafAt E b).tie = (leafAt (sync_val_group s [a, b]).2 b).tie := rfl
    rw [h1]
    exact (leafAt_tie_eq s _ hs1proj.1 b).trans htb
  have hS2tie : S2.leaves.map Leaf.tie =
      ((s.leaves.map Leaf.tie).set a [fr]).set b [fr] := by
    rw [hS2, modifyLeafAt_map Leaf.tie _ b fA hbE2,
      modifyLeafAt_map Leaf.tie E a fA haE]
    have h2 : E.leaves.map Leaf.tie = s.leaves.map Leaf.tie := hs1proj.1
    rw [h2]
    congr 1
    · congr 1
      rw [hfA]
      show List.replicate (leafAt E a).tie.length fr = [fr]
      rw [hEa]
      rfl
    · rw [hfA]
      show List.replicate (leafAt (modifyLeafAt E a fA) b).tie.length fr = [fr]
      rw [leafAt_modify_ne E a b fA hab, hEb]
      rfl
  have hS2tied : S2.tied_param = some tN := rfl
  rcases hcon : (sync_constraint_group S2 [a, b] false none).1 with _ | c
  · dsimp only [List.headD]
    refine ⟨(sync_val_group s [a, b]).1, tN.cons, ?_, ?_⟩
    · rw [set_slot_vals_leaves, (update_label_buf_leaves _).1,
        (sync_constraint_group_proj S2 [a, b] false none).1, hS2tie]
    · have htd : (update_label_buf (sync_constraint_group S2 [a, b] false none).2).tied_param
          = some tN := by
        rw [(update_label_buf_leaves _).2,
          (sync_constraint_group_proj S2 [a, b] false none).2, hS2tied]
      rw [set_slot_vals_some _ tN _ _ htd]
      show some { tN with vals := maskSet tN.tie tN.vals fr _ } = _
      rw [htN]
      have hmask : maskSet (remainingTies s ++ [fr]) (remainingVals s ++ [0]) fr
          (sync_val_group s [a, b]).1 =
          remainingVals s ++ [(sync_val_group s [a, b]).1] := by
        rw [maskSet_append _ _ _ _ _ _ holen,
          maskSet_of_not_mem _ _ _ _ hfr]
        show remainingVals s ++ [if fr = fr then _ else (0 : ℚ)] = _
        rw [if_pos rfl]
      exact congrArg some (by simp only [hmask])
  · dsimp only [List.headD]
    refine ⟨(sync_val_group s [a, b]).1,
      maskSet tN.tie tN.cons fr (some c), ?_, ?_⟩
    · rw [set_slot_vals_leaves, (update_label_buf_leaves _).1,
        constrain_slot_label_leaves,
        (sync_constraint_group_proj S2 [a, b] false none).1, hS2tie]
    · have htd0 : (sync_constraint_group S2 [a, b] false none).2.tied_param = some tN := by
        rw [(sync_constraint_group_proj S2 [a, b] false none).2, hS2tied]
      have htd : (update_label_buf (constrain_slot_label
          (sync_constraint_group S2 [a, b] false none).2 fr c)).tied_param =
          some { tN with cons := maskSet tN.tie tN.cons fr (some c) } := by
        rw [(update_label_buf_leaves _).2, constrain_slot_label_some _ tN _ _ htd0]
      rw [set_slot_vals_some _ _ _ _ htd]
      show some { tN with cons := maskSet tN.tie tN.cons fr (some c),
                          vals := maskSet tN.tie tN.vals fr _ } = _
      have hmask : maskSet tN.tie tN.vals fr (sync_val_group s [a, b]).1 =
          remainingVals s ++ [(sync_val_group s [a, b]).1] := by
        rw [htN]
        show maskSet (remainingTies s ++ [fr]) (remainingVals s ++ [0]) fr _ = _
        rw [maskSet_append _ _ _ _ _ _ holen,
          maskSet_of_not_mem _ _ _ _ hfr]
        show remainingVals s ++ [if fr = fr then _ else (0 : ℚ)] = _
        rw [if_pos rfl]
      rw [hmask]

/-- Witness for C5 on a concrete two-member group with gradients 2 and 7. -/
theorem collate_gradient_sums_witness :
    ∃ t', (collate_gradient exampleGradState).tied_param = some t' ∧
      t'.tie = [1] ∧ t'.vals = [3] ∧ t'.grads.length = 1 ∧
      ∀ i, i < 1 → t'.grads.getD i 0 =
        maskSum (flatTies exampleGradState.leaves) (flatGrads exampleGradState.leaves)
          (([1] : List Nat).getD i 0) :=
  collate_gradient_sums exampleGradState ⟨[3], [0], [1], [none]⟩ rfl (by decide) rfl
    (by decide) rfl rfl

theorem remainingTies_update (s : TieState) :
    remainingTies (update_label_buf s) = remainingTies s := by
  unfold remainingTies
  rw [(update_label_buf_leaves s).2]

theorem remainingVals_update (s : TieState) :
    remainingVals (update_label_buf s) = remainingVals s := by
  unfold remainingVals
  rw [(update_label_buf_leaves s).2]

/-- C7: tying two previously untied leaves with `tie_together [a, b]` and
then calling `untie [a, b]` removes the canonical slot created by the tie:
the pre-existing slots and their values are exactly restored, the slot
store is empty again whenever the new group was the only one, and both
leaves' labels are reset to 0.  (The hypothesis `hcnt` says every
pre-existing group really has at least two leaf members, which is what a
completed `tie_together` call guarantees.) -/
theorem tie_untie_roundtrip (s : TieState) (a b : Nat)
    (hwf : StateWF s) (hint : LabelIntegrity s) (hab : a ≠ b)
    (ha : a < s.leaves.length) (hb : b < s.leaves.length)
    (hta : (leafAt s a).tie = [0]) (htb : (leafAt s b).tie = [0])
    (hcnt : ∀ l ∈ remainingTies s, 2 ≤ (flatTies s.leaves).count l) :
    remainingTies (untie (tie_together s [a, b]) [a, b]) = remainingTies s ∧
    remainingVals (untie (tie_together s [a, b]) [a, b]) = remainingVals s ∧
    (s.tied_param = none → (untie (tie_together s [a, b]) [a, b]).tied_param = none) ∧
    (leafAt (untie (tie_together s [a, b]) [a, b]) a).tie = [0] ∧
    (leafAt (untie (tie_together s [a, b]) [a, b]) b).tie = [0] := by
  obtain ⟨hlwf, htok⟩ := hwf
  have hwfT : ∀ t, s.tied_param = some t → TiedWF t := by
    intro t h
    rw [h] at htok
    exact htok
  have holen : (remainingTies s).length = (remainingVals s).length := by
    rcases h : s.tied_param with _ | t
    · unfold remainingTies remainingVals
      rw [h]
      rfl
    · unfold remainingTies remainingVals
      rw [h]
      exact (hwfT t h).1
  have hond : (remainingTies s).Nodup := by
    rcases h : s.tied_param with _ | t
    · unfold remainingTies
      rw [h]
      exact List.nodup_nil
    · unfold remainingTies
      rw [h]
      exact (hwfT t h).2.2.1
  have hopos : ∀ l ∈ remainingTies s, 0 < l := by
    rcases h : s.tied_param with _ | t
    · unfold remainingTies
      rw [h]
      intro l hl
      exact absurd hl (List.not_mem_nil l)
    · unfold remainingTies
      rw [h]
      exact (hwfT t h).2.2.2
  obtain ⟨v, cF, hTtie, hTtied⟩ := tie_together_pair_shape s a b ha hb hab hta htb holen
  set fr := (remainingTies s).foldr max 0 + 1 with hfrdef
  have hfr : fr ∉ remainingTies s := by
    rw [hfrdef]
    exact foldr_max_succ_not_mem _
  set T := tie_together s [a, b] with hTdef
  set tF : TiedParam :=
    ⟨remainingVals s ++ [v], List.replicate ((remainingVals s).length + 1) 0,
      remainingTies s ++ [fr], cF⟩ with htFdef
  have hTlen : T.leaves.length = s.leaves.length := by
    have h1 := congrArg List.length hTtie
    simpa using h1
  have hsa : (s.leaves.map Leaf.tie)[a]? = some [0] := by
    rw [List.getElem?_map, List.getElem?_eq_getElem ha]
    have h0 := hta
    unfold leafAt at h0
    rw [List.getD_eq_getElem _ _ ha] at h0
    simp [h0]
  have hsb : (s.leaves.map Leaf.tie)[b]? = some [0] := by
    rw [List.getElem?_map, List.getElem?_eq_getElem hb]
    have h0 := htb
    unfold leafAt at h0
    rw [List.getD_eq_getElem _ _ hb] at h0
    simp [h0]
  have hTa : (leafAt T a).tie = [fr] := by
    show (T.leaves.getD a defaultLeaf).tie = [fr]
    rw [← getD_map_tie, hTtie]
    rw [getD_set_ne [] _ b a [fr] (Ne.symm hab)]
    exact getD_set_self [] _ a [fr] (by rw [List.length_map]; exact ha)
  have hTb : (leafAt T b).tie = [fr] := by
    show (T.leaves.getD b defaultLeaf).tie = [fr]
    rw [← getD_map_tie, hTtie]
    exact getD_set_self [] _ b [fr]
      (by rw [List.length_set, List.length_map]; exact hb)
  have hu1tie : (set_labels T [a, b] [0]).leaves.map Leaf.tie = s.leaves.map Leaf.tie := by
    rw [set_labels_pair]
    rw [modifyLeafAt_map Leaf.tie _ b _
      (by rw [modifyLeafAt_length, hTlen]; exact hb)]
    rw [modifyLeafAt_map Leaf.tie T a _ (by rw [hTlen]; exact ha)]
    have h1 : Leaf.tie ((fun lf => { lf with tie := List.replicate lf.tie.length 0 })
        (leafAt T a)) = [0] := by
      show List.replicate (leafAt T a).tie.length 0 = [0]
      rw [hTa]
      rfl
    have h2 : Leaf.tie ((fun lf => { lf with tie := List.replicate lf.tie.length 0 })
        (leafAt (modifyLeafAt T a
          (fun lf => { lf with tie := List.replicate lf.tie.length 0 })) b)) = [0] := by
      show List.replicate (leafAt (modifyLeafAt T a
        (fun lf => { lf with tie := List.replicate lf.tie.length 0 })) b).tie.length 0 = [0]
      rw [leafAt_modify_ne T a b _ hab, hTb]
      rfl
    rw [h1, h2, hTtie]
    rw [List.set_comm [fr] [0] _ (Ne.symm hab)]
    rw [List.set_set]
    rw [List.set_set]
    rw [set_eq_self _ a [0] hsa, set_eq_self _ b [0] hsb]
  have hu1tied : (set_labels T [a, b] [0]).tied_param = some tF := by
    rw [set_labels_tied]
    exact hTtied
  have hu2tied : (update_label_buf (set_labels T [a, b] [0])).tied_param = some tF := by
    rw [(update_label_buf_leaves _).2]
    exact hu1tied
  have hu2leaves : (update_label_buf (set_labels T [a, b] [0])).leaves.map Leaf.tie =
      s.leaves.map Leaf.tie := by
    rw [(update_label_buf_leaves _).1]
    exact hu1tie
  have hu2lb : (update_label_buf (set_labels T [a, b] [0])).label_buf =
      some (flatTies s.leaves ++ tF.tie) := by
    rw [update_label_buf_some _ tF hu1tied]
    show some (flatTies (set_labels T [a, b] [0]).leaves ++ tF.tie) = _
    unfold flatTies
    rw [hu1tie]
  have htFwf : TiedWF tF := by
    refine ⟨?_, ?_, ?_, ?_⟩
    · show (remainingTies s ++ [fr]).length = (remainingVals s ++ [v]).length
      simp [holen]
    · show (List.replicate ((remainingVals s).length + 1) (0 : ℚ)).length =
        (remainingVals s ++ [v]).length
      simp
    · show (remainingTies s ++ [fr]).Nodup
      rw [List.nodup_append]
      refine ⟨hond, List.nodup_singleton fr, fun x hx hx' => ?_⟩
      rw [List.mem_singleton] at hx'
      subst hx'
      exact hfr hx
    · intro l hl
      have hl' : l ∈ remainingTies s ++ [fr] := hl
      rcases List.mem_append.mp hl' with h | h
      · exact hopos l h
      · rw [List.mem_singleton] at h
        subst h
        rw [hfrdef]
        omega
  have hfrflat : (flatTies s.leaves).count fr = 0 := by
    rw [List.count_eq_zero]
    intro hmem
    rcases hint fr hmem with h | h
    · rw [hfrdef] at h
      omega
    · exact hfr h
  have hcntfr : (flatTies s.leaves ++ tF.tie).count fr = 1 := by
    show (flatTies s.leaves ++ (remainingTies s ++ [fr])).count fr = 1
    rw [List.count_append, List.count_append, hfrflat,
      List.count_eq_zero_of_not_mem hfr]
    simp
  have hcntold : ∀ l ∈ remainingTies s,
      2 < (flatTies s.leaves ++ tF.tie).count l := by
    intro l hl
    show 2 < (flatTies s.leaves ++ (remainingTies s ++ [fr])).count l
    rw [List.count_append, List.count_append]
    have h1 := hcnt l hl
    have h2 : 0 < (remainingTies s).count l := List.count_pos_iff.mpr hl
    omega
  obtain ⟨hs1, hs2, hs3, hs4, hs5⟩ := remove_unnecessary_ties_spec
    (update_label_buf (set_labels T [a, b] [0])) tF
    (flatTies s.leaves ++ tF.tie) hu2tied hu2lb htFwf
  have hfilter : tF.tie.filter
      (fun l => decide (2 < (flatTies s.leaves ++ tF.tie).count l)) = remainingTies s := by
    show (remainingTies s ++ [fr]).filter
      (fun l => decide (2 < (flatTies s.leaves ++ tF.tie).count l)) = remainingTies s
    rw [List.filter_append]
    have hA : (remainingTies s).filter
        (fun l => decide (2 < (flatTies s.leaves ++ tF.tie).count l)) = remainingTies s := by
      rw [List.filter_eq_self]
      intro l hl
      simpa using hcntold l hl
    have hB : ([fr] : List Nat).filter
        (fun l => decide (2 < (flatTies s.leaves ++ tF.tie).count l)) = [] := by
      rw [List.filter_eq_nil_iff]
      intro x hx
      rw [List.mem_singleton] at hx
      subst hx
      simp [hcntfr]
    rw [hA, hB, List.append_nil]
  have hties : remainingTies (untie T [a, b]) = remainingTies s := by
    show remainingTies (update_label_buf (remove_unnecessary_ties
      (update_label_buf (set_labels T [a, b] [0])))) = remainingTies s
    rw [remainingTies_update, hs1, hfilter]
  have hzipR : (tF.tie.zip tF.vals).filter
      (fun p => decide (2 < (flatTies s.leaves ++ tF.tie).count p.1)) =
      (remainingTies s).zip (remainingVals s) := by
    show ((remainingTies s ++ [fr]).zip (remainingVals s ++ [v])).filter
      (fun p => decide (2 < (flatTies s.leaves ++ tF.tie).count p.1)) = _
    rw [List.zip_append holen]
    rw [List.filter_append]
    have hA : ((remainingTies s).zip (remainingVals s)).filter
        (fun p => decide (2 < (flatTies s.leaves ++ tF.tie).count p.1)) =
        (remainingTies s).zip (remainingVals s) := by
      rw [List.filter_eq_self]
      intro p hp
      obtain ⟨x, y⟩ := p
      simpa using hcntold x (List.of_mem_zip hp).1
    have hB : (([fr].zip [v]) : List (Nat × ℚ)).filter
        (fun p => decide (2 < (flatTies s.leaves ++ tF.tie).count p.1)) = [] := by
      rw [List.filter_eq_nil_iff]
      intro p hp
      rw [show ([fr].zip [v] : List (Nat × ℚ)) = [(fr, v)] from rfl] at hp
      rw [List.mem_singleton] at hp
      subst hp
      simp [hcntfr]
    rw [hA, hB, List.append_nil]
  have hvals : remainingVals (untie T [a, b]) = remainingVals s := by
    have h3 : remainingTies (remove_unnecessary_ties (update_label_buf
        (set_labels T [a, b] [0]))) = remainingTies s := hs1.trans hfilter
    have h4 := hs2.trans hzipR
    rw [h3] at h4
    have h5 : (remainingTies s).length =
        (remainingVals (remove_unnecessary_ties (update_label_buf
          (set_labels T [a, b] [0])))).length := by
      rw [← h3]
      exact hs4
    show remainingVals (update_label_buf (remove_unnecessary_ties
      (update_label_buf (set_labels T [a, b] [0])))) = remainingVals s
    rw [remainingVals_update]
    exact eq_of_zip_eq (remainingTies s) _ _ h5 holen h4
  have hnone : s.tied_param = none → (untie T [a, b]).tied_param = none := by
    intro h
    have hemp : remainingTies s = [] := by
      unfold remainingTies
      rw [h]
    show (update_label_buf (remove_unnecessary_ties (update_label_buf
      (set_labels T [a, b] [0])))).tied_param = none
    rw [(update_label_buf_leaves _).2]
    apply hs5
    · show remainingTies s ++ [fr] ≠ []
      simp
    · rw [hfilter, hemp]
  have hFd : (fun lf => { lf with
      tie := lf.tie.map (fun l =>
        if l ∈ tF.tie ∧ (flatTies s.leaves ++ tF.tie).count l ≤ 2 then 0 else l) })
      defaultLeaf = defaultLeaf := rfl
  have hla : (leafAt (untie T [a, b]) a).tie = [0] := by
    show (leafAt (update_label_buf (remove_unnecessary_ties (update_label_buf
      (set_labels T [a, b] [0])))) a).tie = [0]
    unfold leafAt
    rw [(update_label_buf_leaves _).1, hs3, getD_map_leafF _ hFd]
    show ((update_label_buf (set_labels T [a, b] [0])).leaves.getD a defaultLeaf).tie.map
      (fun l => if l ∈ tF.tie ∧ (flatTies s.leaves ++ tF.tie).count l ≤ 2 then 0 else l)
      = [0]
    have h6 : ((update_label_buf (set_labels T [a, b] [0])).leaves.getD a defaultLeaf).tie
        = [0] := by
      rw [← getD_map_tie, hu2leaves, getD_map_tie]
      have h0 := hta
      unfold leafAt at h0
      exact h0
    rw [h6]
    show [if (0 : Nat) ∈ tF.tie ∧ (flatTies s.leaves ++ tF.tie).count 0 ≤ 2 then 0 else 0]
      = [0]
    rw [ite_self]
  have hlb2 : (leafAt (untie T [a, b]) b).tie = [0] := by
    show (leafAt (update_label_buf (remove_unnecessary_ties (update_label_buf
      (set_labels T [a, b] [0])))) b).tie = [0]
    unfold leafAt
    rw [(update_label_buf_leaves _).1, hs3, getD_map_leafF _ hFd]
    show ((update_label_buf (set_labels T [a, b] [0])).leaves.getD b defaultLeaf).tie.map
      (fun l => if l ∈ tF.tie ∧ (flatTies s.leaves ++ tF.tie).count l ≤ 2 then 0 else l)
      = [0]
    have h6 : ((update_label_buf (set_labels T [a, b] [0])).leaves.getD b defaultLeaf).tie
        = [0] := by
      rw [← getD_map_tie, hu2leaves, getD_map_tie]
      have h0 := htb
      unfold leafAt at h0
      exact h0
    rw [h6]
    show [if (0 : Nat) ∈ tF.tie ∧ (flatTies s.leaves ++ tF.tie).count 0 ≤ 2 then 0 else 0]
      = [0]
    rw [ite_self]
  exact ⟨hties, hvals, hnone, hla, hlb2⟩

/-- Witness for C7 on two untied scalar leaves and an empty slot store:
after the round trip the store is empty and both labels are back to 0. -/
theorem tie_untie_roundtrip_witness :
    (untie (tie_together exampleTwoLeaves [0, 1]) [0, 1]).tied_param = none ∧
    (leafAt (untie (tie_together exampleTwoLeaves [0, 1]) [0, 1]) 0).tie = [0] ∧
    (leafAt (untie (tie_together exampleTwoLeaves [0, 1]) [0, 1]) 1).tie = [0] := by
  have h := tie_untie_roundtrip exampleTwoLeaves 0 1 (by decide) (by decide)
    (by decide) (by decide) (by decide) (by decide) (by decide) (by decide)
  exact ⟨h.2.2.1 rfl, h.2.2.2.1, h.2.2.2.2⟩

theorem check_step_eq (lb : List Nat) (p : List ℚ × Bool) (k : Nat) :
    check_step lb p k =
      if (diffPositions lb p.1 k).length = 0 then p
      else if (diffPositions lb p.1 k).length = 1 then
        (maskSet lb p.1 (lb.getD k 0) (p.1.getD ((diffPositions lb p.1 k).headD 0) 0), true)
      else (maskSet lb p.1 (lb.getD k 0) (p.1.getD k 0), true) := rfl

theorem check_step_length (lb : List Nat) (p : List ℚ × Bool) (k : Nat) :
    (check_step lb p k).1.length = p.1.length := by
  rw [check_step_eq]
  split
  · rfl
  · split
    · exact maskSet_length _ _ _ _
    · exact maskSet_length _ _ _ _

theorem check_fold_length (lb : List Nat) :
    ∀ (ks : List Nat) (p : List ℚ × Bool),
      ((ks.foldl (check_step lb) p).1).length = p.1.length
  | [], _ => rfl
  | k :: ks, p =>
    (check_fold_length lb ks (check_step lb p k)).trans (check_step_length lb p k)

theorem check_step_equalizes (lb : List Nat) (p : List ℚ × Bool) (k : Nat)
    (hlb : lb.length = p.1.length) (hk : k < p.1.length) :
    Equalized lb (check_step lb p k).1 k := by
  rw [check_step_eq]
  split
  next hds =>
    intro j hj hlab
    by_contra hne
    have hmem : j ∈ diffPositions lb p.1 k :=
      (mem_diffPositions lb p.1 k j).mpr ⟨hj, hlab, hne⟩
    rw [List.length_eq_zero] at hds
    rw [hds] at hmem
    exact absurd hmem (List.not_mem_nil j)
  next =>
    split
    next =>
      show Equalized lb (maskSet lb p.1 (lb.getD k 0)
        (p.1.getD ((diffPositions lb p.1 k).headD 0) 0)) k
      intro j hj hlab
      have hj' : j < p.1.length := by rw [maskSet_length] at hj; exact hj
      rw [maskSet_getD 0 lb p.1 _ _ j hlb hj', maskSet_getD 0 lb p.1 _ _ k hlb hk]
      rw [if_pos hlab, if_pos rfl]
    next =>
      show Equalized lb (maskSet lb p.1 (lb.getD k 0) (p.1.getD k 0)) k
      intro j hj hlab
      have hj' : j < p.1.length := by rw [maskSet_length] at hj; exact hj
      rw [maskSet_getD 0 lb p.1 _ _ j hlb hj', maskSet_getD 0 lb p.1 _ _ k hlb hk]
      rw [if_pos hlab, if_pos rfl]

theorem check_step_preserve (lb : List Nat) (p : List ℚ × Bool) (k k' : Nat)
    (hlb : lb.length = p.1.length) (hk' : k' < p.1.length)
    (hne : lb.getD k' 0 ≠ lb.getD k 0) (he : Equalized lb p.1 k') :
    Equalized lb (check_step lb p k).1 k' := by
  rw [check_step_eq]
  split
  next => exact he
  next =>
    split
    next =>
      show Equalized lb (maskSet lb p.1 (lb.getD k 0)
        (p.1.getD ((diffPositions lb p.1 k).headD 0) 0)) k'
      intro j hj hlab
      have hj' : j < p.1.length := by rw [maskSet_length] at hj; exact hj
      rw [maskSet_getD 0 lb p.1 _ _ j hlb hj', maskSet_getD 0 lb p.1 _ _ k' hlb hk']
      rw [if_neg (by rw [hlab]; exact hne), if_neg hne]
      exact he j hj' hlab
    next =>
      show Equalized lb (maskSet lb p.1 (lb.getD k 0) (p.1.getD k 0)) k'
      intro j hj hlab
      have hj' : j < p.1.length := by rw [maskSet_length] at hj; exact hj
      rw [maskSet_getD 0 lb p.1 _ _ j hlb hj', maskSet_getD 0 lb p.1 _ _ k' hlb hk']
      rw [if_neg (by rw [hlab]; exact hne), if_neg hne]
      exact he j hj' hlab

theorem check_fold_preserve (lb : List Nat) (k' : Nat) :
    ∀ (ks : List Nat) (p : List ℚ × Bool),
      lb.length = p.1.length → k' < p.1.length →
      (∀ k ∈ ks, lb.getD k 0 ≠ lb.getD k' 0) →
      Equalized lb p.1 k' →
      Equalized lb ((ks.foldl (check_step lb) p).1) k'
  | [], _, _, _, _, he => he
  | k :: ks, p, hlb, hk', hne, he =>
    check_fold_preserve lb k' ks (check_step lb p k)
      (hlb.trans (check_step_length lb p k).symm)
      (by rw [check_step_length]; exact hk')
      (fun q hq => hne q (List.mem_cons_of_mem k hq))
      (check_step_preserve lb p k k' hlb hk'
        (Ne.symm (hne k (List.mem_cons_self k ks))) he)

theorem check_fold_equalizes (lb : List Nat) :
    ∀ (ks : List Nat) (p : List ℚ × Bool),
      lb.length = p.1.length →
      (∀ k ∈ ks, k < p.1.length) →
      (ks.map (fun k => lb.getD k 0)).Nodup →
      ∀ k ∈ ks, Equalized lb ((ks.foldl (check_step lb) p).1) k
  | [], _, _, _, _, k, hk => absurd hk (List.not_mem_nil k)
  | k0 :: ks, p, hlb, hlt, hnd, k, hk => by
    rw [List.foldl_cons]
    rw [List.map_cons, List.nodup_cons] at hnd
    rcases List.mem_cons.mp hk with rfl | hk'
    · exact check_fold_preserve lb k ks (check_step lb p k)
        (hlb.trans (check_step_length lb p k).symm)
        (by rw [check_step_length]; exact hlt k (List.mem_cons_self k ks))
        (fun q hq hEq => hnd.1 (List.mem_map.mpr ⟨q, hq, hEq⟩))
        (check_step_equalizes lb p k hlb (hlt k (List.mem_cons_self k ks)))
    · exact check_fold_equalizes lb ks (check_step lb p k0)
        (hlb.trans (check_step_length lb p k0).symm)
        (fun q hq => by
          rw [check_step_length]
          exact hlt q (List.mem_cons_of_mem k0 hq))
        hnd.2 k hk'

theorem map_range'_getD :
    ∀ (w u : List Nat),
      (List.range' u.length w.length).map (fun k => (u ++ w).getD k 0) = w
  | [], _ => rfl
  | x :: w, u => by
    have h1 : List.range' u.length (x :: w).length =
        u.length :: List.range' (u.length + 1) w.length := rfl
    rw [h1, List.map_cons]
    refine congrArg₂ List.cons ?_ ?_
    · rw [List.getD_append_right u (x :: w) 0 u.length (le_refl _)]
      simp
    · have h2 : u.length + 1 = (u ++ [x]).length := by simp
      have h3 : u ++ x :: w = (u ++ [x]) ++ w := by simp
      rw [h2, h3]
      exact map_range'_getD w (u ++ [x])

theorem distributeVals_flatTies :
    ∀ (ls : List Leaf) (a : List ℚ), flatTies (distributeVals ls a) = flatTies ls
  | [], _ => rfl
  | lf :: ls, a => by
    show lf.tie ++ flatTies (distributeVals ls (a.drop lf.vals.length)) =
      lf.tie ++ flatTies ls
    rw [distributeVals_flatTies ls (a.drop lf.vals.length)]

theorem distributeVals_flatVals :
    ∀ (ls : List Leaf) (a : List ℚ), (flatVals ls).length ≤ a.length →
      flatVals (distributeVals ls a) = a.take (flatVals ls).length
  | [], a, _ => rfl
  | lf :: ls, a, h => by
    have h' : lf.vals.length + (flatVals ls).length ≤ a.length := by
      have h2 : flatVals (lf :: ls) = lf.vals ++ flatVals ls := rfl
      rw [h2, List.length_append] at h
      exact h
    show a.take lf.vals.length ++ flatVals (distributeVals ls (a.drop lf.vals.length)) =
      a.take (lf.vals ++ flatVals ls).length
    rw [distributeVals_flatVals ls (a.drop lf.vals.length)
        (by rw [List.length_drop]; omega),
      List.length_append, List.take_add a lf.vals.length (flatVals ls).length]

theorem paramArray_some (s : TieState) (t : TiedParam) (h : s.tied_param = some t) :
    paramArray s = flatVals s.leaves ++ t.vals := by
  unfold paramArray tiedVals
  rw [h]

theorem writeBack_structured (s' : TieState) (t' : TiedParam) (a : List ℚ)
    (hstr : Structured s' t') (hlen : a.length = (paramArray s').length) :
    Structured (writeBack s' a)
      { t' with vals := (a.drop (flatVals s'.leaves).length).take t'.vals.length } := by
  obtain ⟨ht, hlb, hbi, hftv, htlen, hnd⟩ := hstr
  have hPA : (paramArray s').length = (flatVals s'.leaves).length + t'.vals.length := by
    rw [paramArray_some s' t' ht, List.length_append]
  have hW : writeBack s' a = { s' with
      leaves := distributeVals s'.leaves a,
      tied_param := some { t' with
        vals := (a.drop (flatVals s'.leaves).length).take t'.vals.length } } := by
    unfold writeBack
    rw [ht]
  rw [hW]
  have hvlen : ((a.drop (flatVals s'.leaves).length).take t'.vals.length).length =
      t'.vals.length := by
    rw [List.length_take, List.length_drop]
    omega
  have hfT : flatTies (distributeVals s'.leaves a) = flatTies s'.leaves :=
    distributeVals_flatTies s'.leaves a
  have hfV : flatVals (distributeVals s'.leaves a) =
      a.take (flatVals s'.leaves).length :=
    distributeVals_flatVals s'.leaves a (by omega)
  have hfVlen : (flatVals (distributeVals s'.leaves a)).length =
      (flatVals s'.leaves).length := by
    rw [hfV, List.length_take]
    omega
  refine ⟨rfl, ?_, ?_, ?_, ?_, hnd⟩
  · show s'.label_buf = some (flatTies (distributeVals s'.leaves a) ++ t'.tie)
    rw [hfT]
    exact hlb
  · show s'.buf_idx = some (List.range'
      (flatVals (distributeVals s'.leaves a)).length
      ((a.drop (flatVals s'.leaves).length).take t'.vals.length).length)
    rw [hfVlen, hvlen]
    exact hbi
  · show (flatTies (distributeVals s'.leaves a)).length =
      (flatVals (distributeVals s'.leaves a)).length
    rw [hfT, hfVlen, hftv]
  · show t'.tie.length = ((a.drop (flatVals s'.leaves).length).take t'.vals.length).length
    rw [hvlen]
    exact htlen

theorem check_pass_spec (s' : TieState) (t' : TiedParam) (hstr : Structured s' t') :
    GroupsEqual (check_change s').2 ∧ ∃ t2, Structured (check_change s').2 t2 := by
  obtain ⟨ht, hlb, hbi, hftv, htlen, hnd⟩ := hstr
  have hPAlen : (paramArray s').length =
      (flatVals s'.leaves).length + t'.vals.length := by
    rw [paramArray_some s' t' ht, List.length_append]
  have hlblen : (flatTies s'.leaves ++ t'.tie).length = (paramArray s').length := by
    rw [List.length_append, hPAlen, hftv, htlen]
  have hcc : (check_change s').2 = writeBack s'
      ((check_change_arr (flatTies s'.leaves ++ t'.tie)
        (List.range' (flatVals s'.leaves).length t'.vals.length) (paramArray s')).1) := by
    unfold check_change
    rw [ht, hlb, hbi]
    rfl
  set lb := flatTies s'.leaves ++ t'.tie with hlbdef
  set bi := List.range' (flatVals s'.leaves).length t'.vals.length with hbidef
  set afin := (check_change_arr lb bi (paramArray s')).1 with hafin
  have hflen : afin.length = (paramArray s').length := by
    rw [hafin]
    exact check_fold_length lb bi (paramArray s', false)
  have hmap : bi.map (fun k => lb.getD k 0) = t'.tie := by
    rw [hbidef, hlbdef]
    rw [show (flatVals s'.leaves).length = (flatTies s'.leaves).length from hftv.symm,
      show t'.vals.length = t'.tie.length from htlen.symm]
    exact map_range'_getD t'.tie (flatTies s'.leaves)
  have hEq : ∀ k ∈ bi, Equalized lb afin k := by
    intro k hk
    rw [hafin]
    exact check_fold_equalizes lb bi (paramArray s', false)
      hlblen
      (fun q hq => by
        rw [hbidef] at hq
        have hq2 := List.mem_range'_1.mp hq
        show q < (paramArray s').length
        omega)
      (by rw [hmap]; exact hnd)
      k hk
  constructor
  · rw [hcc]
    intro t2 ht2 i hi j hj hlab
    have hWt : (writeBack s' afin).tied_param =
        some { t' with
          vals := (afin.drop (flatVals s'.leaves).length).take t'.vals.length } := by
      unfold writeBack
      rw [ht]
    rw [hWt] at ht2
    have ht2' : ({ t' with
        vals := (afin.drop (flatVals s'.leaves).length).take t'.vals.length } :
        TiedParam) = t2 := Option.some.inj ht2
    subst ht2'
    have hWPA : paramArray (writeBack s' afin) = afin := by
      unfold paramArray
      have hWl : (writeBack s' afin).leaves = distributeVals s'.leaves afin := rfl
      rw [hWl, hWt]
      show flatVals (distributeVals s'.leaves afin) ++
        (afin.drop (flatVals s'.leaves).length).take t'.vals.length = afin
      rw [distributeVals_flatVals s'.leaves afin (by omega)]
      have h9 : (afin.drop (flatVals s'.leaves).length).take t'.vals.length =
          afin.drop (flatVals s'.leaves).length := by
        apply List.take_of_length_le
        rw [List.length_drop]
        omega
      rw [h9]
      exact List.take_append_drop _ afin
    rw [hWPA] at hj ⊢
    have hi' : i < t'.vals.length := by
      have hi2 : i < t'.tie.length := hi
      omega
    have hlab' : lb.getD j 0 = lb.getD ((flatVals s'.leaves).length + i) 0 := by
      have h10 : lb.getD ((flatVals s'.leaves).length + i) 0 = t'.tie.getD i 0 := by
        rw [hlbdef]
        rw [show (flatVals s'.leaves).length = (flatTies s'.leaves).length from hftv.symm]
        rw [List.getD_append_right (flatTies s'.leaves) t'.tie 0 _
          (Nat.le_add_right _ _)]
        congr 1
        omega
      rw [h10]
      have h11 : (s'.label_buf.getD []).getD j 0 = lb.getD j 0 := by
        rw [hlb]
        rfl
      rw [← h11]
      exact hlab
    have hEqk := hEq ((flatVals s'.leaves).length + i) (by
      rw [hbidef]
      exact List.mem_range'_1.mpr ⟨Nat.le_add_right _ _, by omega⟩)
    have h12 := hEqk j hj hlab'
    rw [h12]
    show afin.getD ((flatVals s'.leaves).length + i) 0 =
      ((afin.drop (flatVals s'.leaves).length).take t'.vals.length).getD i 0
    rw [getD_take 0 _ t'.vals.length i hi', getD_drop 0 afin (flatVals s'.leaves).length i]
  · refine ⟨{ t' with
      vals := (afin.drop (flatVals s'.leaves).length).take t'.vals.length }, ?_⟩
    rw [hcc]
    exact writeBack_structured s' t' afin ⟨ht, hlb, hbi, hftv, htlen, hnd⟩ hflen

theorem groupsEqual_of_none (X : TieState) (h : X.tied_param = none) : GroupsEqual X := by
  intro t ht
  rw [h] at ht
  exact absurd ht (by simp)

theorem groupsEqual_grads (X : TieState) (t : TiedParam) (G : List ℚ)
    (hX : X.tied_param = some t) (h : GroupsEqual X) :
    GroupsEqual { X with tied_param := some { t with grads := G } } := by
  intro t2 ht2 i hi j hj hlab
  have ht2' : ({ t with grads := G } : TiedParam) = t2 := Option.some.inj ht2
  subst ht2'
  have hPA : paramArray { X with tied_param := some { t with grads := G } } =
      paramArray X := by
    unfold paramArray tiedVals
    rw [hX]
  rw [hPA] at hj ⊢
  have hlab' : (X.label_buf.getD []).getD j 0 = t.tie.getD i 0 := hlab
  have hi' : i < t.tie.length := hi
  exact h t hX i hi' j hj hlab'

theorem collate_none (X : TieState) (h : X.tied_param = none) :
    collate_gradient X = X := by
  unfold collate_gradient
  rw [h]

theorem collate_eq (X : TieState) (t : TiedParam) (hX : X.tied_param = some t) :
    ∃ G, collate_gradient X = { X with tied_param := some { t with grads := G } } := by
  unfold collate_gradient
  rw [hX]
  exact ⟨_, rfl⟩

theorem groupsEqual_collate (X : TieState) (h : GroupsEqual X) :
    GroupsEqual (collate_gradient X) := by
  rcases hX : X.tied_param with _ | t
  · rw [collate_none X hX]
    exact h
  · obtain ⟨G, hE⟩ := collate_eq X t hX
    rw [hE]
    exact groupsEqual_grads X t G hX h

theorem check_change_flag (s : TieState) :
    (check_change s).2.PROPAGATE_VAL = s.PROPAGATE_VAL := by
  unfold check_change
  rcases h : s.tied_param with _ | t
  · rfl
  · rfl

theorem parameters_changed_fuel_succ (n : Nat) (s : TieState) :
    parameters_changed_fuel (n + 1) s =
      if s.PROPAGATE_VAL then collate_gradient { s with PROPAGATE_VAL := false }
      else
        collate_gradient (if (check_change s).1 then
          parameters_changed_fuel n
            { (check_change s).2 with optimizer_copy_transformed := false }
        else (check_change s).2) := rfl

theorem final_structured (X : TieState) (L : Nat) (v : ℚ) (t : TiedParam)
    (hX : X.tied_param = some t) (hlwf : LeavesWF X.leaves)
    (hlen : t.tie.length = t.vals.length) (hnd : t.tie.Nodup) :
    Structured (set_slot_vals (update_label_buf X) L v)
      { t with vals := maskSet t.tie t.vals L v } := by
  have hU : update_label_buf X = { X with
      label_buf := some (flatTies X.leaves ++ t.tie),
      buf_idx := some (List.range' (flatVals X.leaves).length t.vals.length) } :=
    update_label_buf_some X t hX
  have hS : set_slot_vals (update_label_buf X) L v = { (update_label_buf X) with
      tied_param := some { t with vals := maskSet t.tie t.vals L v } } :=
    set_slot_vals_some (update_label_buf X) t L v (by rw [hU]; exact hX)
  rw [hS, hU]
  refine ⟨rfl, rfl, ?_, ?_, ?_, hnd⟩
  · show some (List.range' (flatVals X.leaves).length t.vals.length) =
      some (List.range' (flatVals X.leaves).length (maskSet t.tie t.vals L v).length)
    rw [maskSet_length]
  · exact flatTies_length X.leaves hlwf
  · show t.tie.length = (maskSet t.tie t.vals L v).length
    rw [maskSet_length]
    exact hlen

theorem final_none (X : TieState) (L : Nat) (v : ℚ) (hX : X.tied_param = none) :
    (set_slot_vals (update_label_buf X) L v).tied_param = none := by
  have hU : (update_label_buf X).tied_param = none := by
    unfold update_label_buf
    rw [hX]
  unfold set_slot_vals
  rw [hU]
  exact hU

theorem replaceLabelsList_length :
    ∀ (pairs : List (Nat × Nat)) (tie : List Nat),
      (replaceLabelsList pairs tie).length = tie.length
  | [], _ => rfl
  | p :: pairs, tie => by
    rw [replaceLabelsList_cons, replaceLabelsList_length pairs, List.length_map]

theorem leavesWF_modify (f : Leaf → Leaf)
    (hf : ∀ lf, (f lf).tie.length = lf.tie.length ∧
      (f lf).vals.length = lf.vals.length ∧ (f lf).grads.length = lf.grads.length)
    (ls : List Leaf) (i : Nat) (h : LeavesWF ls) :
    LeavesWF (modifyLeafList ls i f) := by
  unfold modifyLeafList
  cases hx : ls[i]? with
  | none => exact h
  | some lf0 =>
    intro lf hlf
    rcases List.mem_or_eq_of_mem_set hlf with hmem | rfl
    · exact h lf hmem
    · have hlf0 : lf0 ∈ ls := by
        have hi : i < ls.length := by
          by_contra hge
          rw [List.getElem?_eq_none (by omega)] at hx
          exact absurd hx (by simp)
        rw [List.getElem?_eq_getElem hi] at hx
        obtain rfl := Option.some.inj hx
        exact List.getElem_mem hi
      obtain ⟨h1, h2, h3⟩ := hf lf0
      obtain ⟨h4, h5⟩ := h lf0 hlf0
      exact ⟨by rw [h1, h2]; exact h4, by rw [h3, h2]; exact h5⟩

theorem leavesWF_foldl_modify (f : Leaf → Leaf)
    (hf : ∀ lf, (f lf).tie.length = lf.tie.length ∧
      (f lf).vals.length = lf.vals.length ∧ (f lf).grads.length = lf.grads.length) :
    ∀ (plist : List Nat) (s : TieState),
      LeavesWF s.leaves →
      LeavesWF ((plist.foldl (fun st i => modifyLeafAt st i f) s).leaves)
  | [], _, h => h
  | i :: plist, s, h =>
    leavesWF_foldl_modify f hf plist (modifyLeafAt s i f)
      (leavesWF_modify f hf s.leaves i h)

theorem sync_val_group_wf (s : TieState) (plist : List Nat) (h : LeavesWF s.leaves) :
    LeavesWF (sync_val_group s plist).2.leaves := by
  have he : (sync_val_group s plist).2 = plist.foldl (fun st i => modifyLeafAt st i
      (fun lf =>
        { lf with
          vals := List.replicate lf.vals.length (sync_val_group s plist).1 })) s :=
    rfl
  rw [he]
  exact leavesWF_foldl_modify
    (fun lf =>
      { lf with vals := List.replicate lf.vals.length (sync_val_group s plist).1 })
    (fun lf => ⟨rfl, by simp, rfl⟩) plist s h

theorem set_labels_one (s : TieState) (plist : List Nat) (labels : List Nat)
    (h : labels.length = 1) :
    set_labels s plist labels = plist.foldl (fun st i => modifyLeafAt st i
      (fun lf => { lf with tie := List.replicate lf.tie.length (labels.headD 0) })) s := by
  unfold set_labels
  rw [if_pos h]

theorem set_labels_one_wf (s : TieState) (plist : List Nat) (labels : List Nat)
    (h : labels.length = 1) (hwf : LeavesWF s.leaves) :
    LeavesWF (set_labels s plist labels).leaves := by
  rw [set_labels_one s plist labels h]
  exact leavesWF_foldl_modify
    (fun lf => { lf with tie := List.replicate lf.tie.length (labels.headD 0) })
    (fun lf => ⟨by simp, rfl, rfl⟩) plist s hwf

theorem sync_constraint_group_wf (s : TieState) (plist : List Nat) (hastie : Bool)
    (c0 : Option Nat) (hwf : LeavesWF s.leaves) :
    LeavesWF (sync_constraint_group s plist hastie c0).2.leaves := by
  unfold sync_constraint_group
  rcases hc : (if hastie then c0
      else (plist.filterMap (fun i => (leafAt s i).con)).head?) with _ | c
  · cases hastie
    · exact hwf
    · exact leavesWF_foldl_modify (fun lf => { lf with con := none })
        (fun lf => ⟨rfl, rfl, rfl⟩) plist s hwf
  · exact leavesWF_foldl_modify (fun lf => { lf with con := some c })
      (fun lf => ⟨rfl, rfl, rfl⟩) plist s hwf

theorem replace_labels_wf (s : TieState) (pairs : List (Nat × Nat))
    (hwf : LeavesWF s.leaves) : LeavesWF (replace_labels s pairs).leaves := by
  intro lf hlf
  have hl : (replace_labels s pairs).leaves =
      s.leaves.map (fun lf => { lf with tie := replaceLabelsList pairs lf.tie }) := rfl
  rw [hl] at hlf
  obtain ⟨lf0, hmem, rfl⟩ := List.mem_map.mp hlf
  obtain ⟨h1, h2⟩ := hwf lf0 hmem
  refine ⟨?_, ?_⟩
  · show (replaceLabelsList pairs lf0.tie).length = lf0.vals.length
    rw [replaceLabelsList_length]
    exact h1
  · exact h2

theorem remove_tie_param_some (s : TieState) (t : TiedParam) (labels : List Nat)
    (h : s.tied_param = some t) :
    remove_tie_param s labels =
      if labels.length = t.vals.length then { s with tied_param := none }
      else { s with tied_param := some {
          vals := (removeSlots labels t.tie t.vals).2,
          grads := List.replicate (removeSlots labels t.tie t.vals).1.length 0,
          tie := (removeSlots labels t.tie t.vals).1,
          cons := List.replicate (removeSlots labels t.tie t.vals).1.length none } } := by
  unfold remove_tie_param
  rw [h]

theorem remove_tie_param_leaves (s : TieState) (labels : List Nat) :
    (remove_tie_param s labels).leaves = s.leaves := by
  rcases h : s.tied_param with _ | t
  · unfold remove_tie_param
    rw [h]
  · rw [remove_tie_param_some s t labels h]
    split
    · rfl
    · rfl

theorem replace_labels_tied_none (s : TieState) (pairs : List (Nat × Nat))
    (h : s.tied_param = none) : (replace_labels s pairs).tied_param = none := by
  unfold replace_labels
  rw [h]

theorem replace_labels_tied_some (s : TieState) (pairs : List (Nat × Nat))
    (t : TiedParam) (h : s.tied_param = some t) :
    (replace_labels s pairs).tied_param =
      some { t with tie := replaceLabelsList pairs t.tie } := by
  unfold replace_labels
  rw [h]

theorem expand_one_none (s : TieState) (h : s.tied_param = none) :
    (expand_tie_param s 1).2.2.tied_param = some {
      vals := List.replicate 1 0, grads := List.replicate 1 0,
      tie := List.range' 1 1, cons := List.replicate 1 none } := by
  unfold expand_tie_param
  rw [h]

theorem expand_one_some (s : TieState) (t : TiedParam) (h : s.tied_param = some t) :
    (expand_tie_param s 1).2.2.tied_param = some {
      vals := t.vals ++ List.replicate 1 0,
      grads := List.replicate (t.vals.length + 1) 0,
      tie := t.tie ++ List.range' (t.tie.foldr max 0 + 1) 1,
      cons := List.replicate (t.vals.length + 1) none } := by
  unfold expand_tie_param
  rw [h]

theorem expand_aligned (s : TieState) (hok : TiedOK s.tied_param) :
    ∀ t1, (expand_tie_param s 1).2.2.tied_param = some t1 →
      t1.tie.length = t1.vals.length ∧ t1.tie.Nodup := by
  intro t1 h1
  rcases h : s.tied_param with _ | t
  · rw [expand_one_none s h] at h1
    obtain rfl := Option.some.inj h1
    constructor
    · show (List.range' 1 1).length = (List.replicate 1 (0 : ℚ)).length
      simp
    · show (List.range' 1 1).Nodup
      exact List.nodup_range' 1 1
  · rw [expand_one_some s t h] at h1
    obtain rfl := Option.some.inj h1
    have hwt : TiedWF t := by rw [h] at hok; exact hok
    constructor
    · show (t.tie ++ List.range' (t.tie.foldr max 0 + 1) 1).length =
        (t.vals ++ List.replicate 1 0).length
      simp [hwt.1]
    · show (t.tie ++ List.range' (t.tie.foldr max 0 + 1) 1).Nodup
      rw [List.range'_one, List.nodup_append]
      refine ⟨hwt.2.2.1, List.nodup_singleton _, fun x hx hx' => ?_⟩
      rw [List.mem_singleton] at hx'
      subst hx'
      exact foldr_max_succ_not_mem t.tie hx

theorem constrain_slot_label_aligned (s : TieState) (L c : Nat)
    (hal : ∀ t, s.tied_param = some t → t.tie.length = t.vals.length ∧ t.tie.Nodup) :
    ∀ t1, (constrain_slot_label s L c).tied_param = some t1 →
      t1.tie.length = t1.vals.length ∧ t1.tie.Nodup := by
  intro t1 h1
  rcases h : s.tied_param with _ | t
  · have he : constrain_slot_label s L c = s := by
      unfold constrain_slot_label
      rw [h]
    rw [he, h] at h1
    exact absurd h1 (by simp)
  · have he : constrain_slot_label s L c =
        { s with tied_param := some { t with cons := maskSet t.tie t.cons L (some c) } } := by
      unfold constrain_slot_label
      rw [h]
    rw [he] at h1
    obtain rfl := Option.some.inj h1
    exact hal t h

theorem merge_tie_labels_aligned (s : TieState) (labels : List Nat)
    (hok : TiedOK s.tied_param) :
    ∀ t1, (merge_tie_labels s labels).tied_param = some t1 →
      t1.tie.length = t1.vals.length ∧ t1.tie.Nodup := by
  intro t1 h1
  unfold merge_tie_labels at h1
  by_cases hlt : labels.length < 2
  · rw [if_pos hlt] at h1
    have h2 : TiedWF t1 := by rw [h1] at hok; exact hok
    exact ⟨h2.1, h2.2.2.1⟩
  · rw [if_neg hlt] at h1
    rcases h : s.tied_param with _ | t
    · have hr : remove_tie_param s labels.tail = s := by
        unfold remove_tie_param
        rw [h]
      rw [hr] at h1
      rw [replace_labels_tied_none s _ h] at h1
      exact absurd h1 (by simp)
    · have hwt : TiedWF t := by rw [h] at hok; exact hok
      rw [remove_tie_param_some s t labels.tail h] at h1
      by_cases hcov : labels.tail.length = t.vals.length
      · rw [if_pos hcov] at h1
        rw [replace_labels_tied_none _ _ rfl] at h1
        exact absurd h1 (by simp)
      · rw [if_neg hcov] at h1
        rw [replace_labels_tied_some _ _ _ rfl] at h1
        obtain rfl := Option.some.inj h1
        have hfst : (removeSlots labels.tail t.tie t.vals).1 =
            t.tie.filter (fun l => decide (l ∉ labels.tail)) :=
          removeSlots_fst labels.tail t.tie t.vals hwt.1
        have hid : replaceLabelsList (labels.tail.map fun l => (l, labels.headD 0))
            (removeSlots labels.tail t.tie t.vals).1 =
            (removeSlots labels.tail t.tie t.vals).1 := by
          apply replaceLabelsList_id
          intro x hx p hp
          rw [hfst, List.mem_filter] at hx
          have hx2 : x ∉ labels.tail := by simpa using hx.2
          obtain ⟨l0, hl0, rfl⟩ := List.mem_map.mp hp
          show x ≠ l0
          intro hxe
          exact hx2 (by rw [hxe]; exact hl0)
        constructor
        · show (replaceLabelsList (labels.tail.map fun l => (l, labels.headD 0))
            (removeSlots labels.tail t.tie t.vals).1).length =
            (removeSlots labels.tail t.tie t.vals).2.length
          rw [hid]
          exact removeSlots_length labels.tail t.tie t.vals
        · show (replaceLabelsList (labels.tail.map fun l => (l, labels.headD 0))
            (removeSlots labels.tail t.tie t.vals).1).Nodup
          rw [hid, hfst]
          exact hwt.2.2.1.filter _

theorem set_slot_vals_flag (s : TieState) (L : Nat) (v : ℚ) :
    (set_slot_vals s L v).PROPAGATE_VAL = s.PROPAGATE_VAL := by
  unfold set_slot_vals
  rcases h : s.tied_param with _ | t <;> rfl

theorem update_label_buf_flag (s : TieState) :
    (update_label_buf s).PROPAGATE_VAL = s.PROPAGATE_VAL := by
  unfold update_label_buf
  rcases h : s.tied_param with _ | t <;> rfl

theorem constrain_slot_label_flag (s : TieState) (L c : Nat) :
    (constrain_slot_label s L c).PROPAGATE_VAL = s.PROPAGATE_VAL := by
  unfold constrain_slot_label
  rcases h : s.tied_param with _ | t <;> rfl

theorem expand_flag (s : TieState) (num : Nat) :
    (expand_tie_param s num).2.2.PROPAGATE_VAL = s.PROPAGATE_VAL := by
  unfold expand_tie_param
  rcases h : s.tied_param with _ | t <;> rfl

theorem set_labels_flag (s : TieState) (plist labels : List Nat) :
    (set_labels s plist labels).PROPAGATE_VAL = s.PROPAGATE_VAL := by
  unfold set_labels
  by_cases h : labels.length = 1
  · rw [if_pos h]
    exact (foldl_modifyLeafAt_nonleaf _ plist s).2.2.2.1
  · rw [if_neg h]
    exact (foldl_modifyLeafAt_nonleaf _ plist s).2.2.2.1

theorem sync_constraint_group_flag (s : TieState) (plist : List Nat) (hastie : Bool)
    (c0 : Option Nat) :
    (sync_constraint_group s plist hastie c0).2.PROPAGATE_VAL = s.PROPAGATE_VAL := by
  unfold sync_constraint_group
  rcases hc : (if hastie then c0
      else (plist.filterMap (fun i => (leafAt s i).con)).head?) with _ | c
  · cases hastie
    · rfl
    · exact (foldl_modifyLeafAt_nonleaf _ plist s).2.2.2.1
  · exact (foldl_modifyLeafAt_nonleaf _ plist s).2.2.2.1

theorem replace_labels_flag (s : TieState) (pairs : List (Nat × Nat)) :
    (replace_labels s pairs).PROPAGATE_VAL = s.PROPAGATE_VAL := rfl

theorem remove_tie_param_flag (s : TieState) (labels : List Nat) :
    (remove_tie_param s labels).PROPAGATE_VAL = s.PROPAGATE_VAL := by
  rcases h : s.tied_param with _ | t
  · unfold remove_tie_param
    rw [h]
  · rw [remove_tie_param_some s t labels h]
    split <;> rfl

theorem merge_tie_labels_flag (s : TieState) (labels : List Nat) :
    (merge_tie_labels s labels).PROPAGATE_VAL = s.PROPAGATE_VAL := by
  unfold merge_tie_labels
  split
  · rfl
  · rw [replace_labels_flag, remove_tie_param_flag]

theorem merge_tie_labels_wf (s : TieState) (labels : List Nat)
    (h : LeavesWF s.leaves) : LeavesWF (merge_tie_labels s labels).leaves := by
  unfold merge_tie_labels
  split
  · exact h
  · apply replace_labels_wf
    rw [remove_tie_param_leaves]
    exact h

theorem expand_leaves (s : TieState) (num : Nat) :
    (expand_tie_param s num).2.2.leaves = s.leaves := by
  unfold expand_tie_param
  rcases h : s.tied_param with _ | t <;> rfl

theorem expand_fst_len (s : TieState) : (expand_tie_param s 1).1.length = 1 := by
  unfold expand_tie_param
  rcases h : s.tied_param with _ | t <;> simp

theorem tie_mid_good (s : TieState) (plist : List Nat) (hwf : StateWF s) :
    ∃ X L v, tie_together s plist = set_slot_vals (update_label_buf X) L v ∧
      LeavesWF X.leaves ∧
      (∀ t1, X.tied_param = some t1 → t1.tie.length = t1.vals.length ∧ t1.tie.Nodup) ∧
      X.PROPAGATE_VAL = s.PROPAGATE_VAL := by
  obtain ⟨hlwf, htok⟩ := hwf
  have hVwf : LeavesWF (sync_val_group s plist).2.leaves := sync_val_group_wf s plist hlwf
  have hVtied : (sync_val_group s plist).2.tied_param = s.tied_param :=
    (sync_val_group_proj s plist).2.1
  have hVflag : (sync_val_group s plist).2.PROPAGATE_VAL = s.PROPAGATE_VAL :=
    (sync_val_group_proj s plist).2.2
  by_cases hbr : get_labels s plist = [0]
  · simp only [tie_together]
    rw [if_pos hbr]
    set V := (sync_val_group s plist).2 with hV
    set E := expand_tie_param V 1 with hE
    set SL := set_labels E.2.2 plist E.1 with hSL
    set R3 := sync_constraint_group SL plist false none with hR3
    have hSLwf : LeavesWF SL.leaves := by
      rw [hSL]
      exact set_labels_one_wf E.2.2 plist E.1 (by rw [hE]; exact expand_fst_len V)
        (by rw [hE, expand_leaves]; exact hVwf)
    have hR3wf : LeavesWF R3.2.leaves := by
      rw [hR3]
      exact sync_constraint_group_wf SL plist false none hSLwf
    have hR3al : ∀ t1, R3.2.tied_param = some t1 →
        t1.tie.length = t1.vals.length ∧ t1.tie.Nodup := by
      intro t1 h1
      rw [hR3, (sync_constraint_group_proj SL plist false none).2, hSL,
        set_labels_tied, hE] at h1
      exact expand_aligned V (by rw [hVtied]; exact htok) t1 h1
    have hR3fl : R3.2.PROPAGATE_VAL = s.PROPAGATE_VAL := by
      rw [hR3, sync_constraint_group_flag, hSL, set_labels_flag, hE, expand_flag]
      exact hVflag
    rcases hsc : R3.1 with _ | c
    · exact ⟨_, _, _, rfl, hR3wf, hR3al, hR3fl⟩
    · refine ⟨_, _, _, rfl, ?_, ?_, ?_⟩
      · show LeavesWF (constrain_slot_label R3.2 (E.1.headD 0) c).leaves
        rw [constrain_slot_label_leaves]
        exact hR3wf
      · exact constrain_slot_label_aligned R3.2 (E.1.headD 0) c hR3al
      · show (constrain_slot_label R3.2 (E.1.headD 0) c).PROPAGATE_VAL = s.PROPAGATE_VAL
        rw [constrain_slot_label_flag]
        exact hR3fl
  · simp only [tie_together]
    rw [if_neg hbr]
    set tl := (get_labels s plist).filter (fun l => decide (0 < l)) with htl
    set S2 := if 1 < tl.length then merge_tie_labels (sync_val_group s plist).2 tl
      else (sync_val_group s plist).2 with hS2def
    set S3 := set_labels S2 plist [tl.headD 0] with hS3def
    have hS2wf : LeavesWF S2.leaves := by
      rw [hS2def]
      by_cases hm : 1 < tl.length
      · rw [if_pos hm]
        exact merge_tie_labels_wf _ tl hVwf
      · rw [if_neg hm]
        exact hVwf
    have hS2al : ∀ t1, S2.tied_param = some t1 →
        t1.tie.length = t1.vals.length ∧ t1.tie.Nodup := by
      rw [hS2def]
      by_cases hm : 1 < tl.length
      · rw [if_pos hm]
        exact merge_tie_labels_aligned _ tl (by rw [hVtied]; exact htok)
      · rw [if_neg hm]
        intro t1 h1
        rw [hVtied] at h1
        have h2 : TiedWF t1 := by rw [h1] at htok; exact htok
        exact ⟨h2.1, h2.2.2.1⟩
    have hS2fl : S2.PROPAGATE_VAL = s.PROPAGATE_VAL := by
      rw [hS2def]
      by_cases hm : 1 < tl.length
      · rw [if_pos hm, merge_tie_labels_flag]
        exact hVflag
      · rw [if_neg hm]
        exact hVflag
    have hS3wf : LeavesWF S3.leaves := by
      rw [hS3def]
      exact set_labels_one_wf S2 plist [tl.headD 0] rfl hS2wf
    refine ⟨_, _, _, rfl, ?_, ?_, ?_⟩
    · exact sync_constraint_group_wf S3 plist true _ hS3wf
    · intro t1 h1
      rw [(sync_constraint_group_proj S3 plist true _).2, hS3def, set_labels_tied] at h1
      exact hS2al t1 h1
    · rw [sync_constraint_group_flag, hS3def, set_labels_flag]
      exact hS2fl

/-- C1: after a completed `tie_together` call on a non-empty leaf list
(starting from a well-formed quiescent state, so that the closing change
notification runs the value check instead of consuming a pending
propagate flag), every tie group of the resulting state is internally
equal: each position of the flattened vector carrying a slot's label
holds that canonical slot's value. -/
theorem tie_together_equality (s : TieState) (plist : List Nat)
    (hwf : StateWF s) (hflag : s.PROPAGATE_VAL = false) (hne : plist ≠ []) :
    GroupsEqual (parameters_changed (tie_together s plist)) := by
  obtain ⟨X, L, v, heq, hXwf, hXal, hXfl⟩ := tie_mid_good s plist hwf
  rw [heq]
  have hFfl : (set_slot_vals (update_label_buf X) L v).PROPAGATE_VAL = false := by
    rw [set_slot_vals_flag, update_label_buf_flag, hXfl]
    exact hflag
  rcases hXt : X.tied_param with _ | t
  · have hFt : (set_slot_vals (update_label_buf X) L v).tied_param = none :=
      final_none X L v hXt
    set F := set_slot_vals (update_label_buf X) L v with hF
    have hcheck : check_change F = (false, F) := by
      unfold check_change
      rw [hFt]
    show GroupsEqual (parameters_changed_fuel 2 F)
    rw [show (2 : Nat) = 1 + 1 from rfl, parameters_changed_fuel_succ,
      if_neg (by rw [hFfl]; simp), hcheck]
    show GroupsEqual (collate_gradient F)
    rw [collate_none F hFt]
    exact groupsEqual_of_none F hFt
  · have hal := hXal t hXt
    have hstrF := final_structured X L v t hXt hXwf hal.1 hal.2
    set F := set_slot_vals (update_label_buf X) L v with hF
    obtain ⟨hG1, t2, hstr2⟩ :=
      check_pass_spec F { t with vals := maskSet t.tie t.vals L v } hstrF
    show GroupsEqual (parameters_changed_fuel 2 F)
    rw [show (2 : Nat) = 1 + 1 from rfl, parameters_changed_fuel_succ,
      if_neg (by rw [hFfl]; simp)]
    by_cases hr : (check_change F).1 = true
    · rw [if_pos hr]
      have hstr2' : Structured { (check_change F).2 with
          optimizer_copy_transformed := false } t2 := hstr2
      have hFfl2 : ({ (check_change F).2 with
          optimizer_copy_transformed := false } : TieState).PROPAGATE_VAL = false := by
        show (check_change F).2.PROPAGATE_VAL = false
        rw [check_change_flag]
        exact hFfl
      obtain ⟨hG2, t3, hstr3⟩ := check_pass_spec { (check_change F).2 with
          optimizer_copy_transformed := false } t2 hstr2'
      rw [show (1 : Nat) = 0 + 1 from rfl, parameters_changed_fuel_succ,
        if_neg (by rw [hFfl2]; simp)]
      apply groupsEqual_collate
      apply groupsEqual_collate
      by_cases hr2 : (check_change { (check_change F).2 with
          optimizer_copy_transformed := false }).1 = true
      · rw [if_pos hr2]
        exact hG2
      · rw [if_neg hr2]
        exact hG2
    · rw [if_neg hr]
      apply groupsEqual_collate
      exact hG1

/-- Witness for C1: tying the two example leaves (values 2 and 4) from the
well-formed quiescent example state. -/
theorem tie_together_equality_witness :
    StateWF exampleTwoLeaves ∧ exampleTwoLeaves.PROPAGATE_VAL = false ∧
      ([0, 1] : List Nat) ≠ [] ∧
      GroupsEqual (parameters_changed (tie_together exampleTwoLeaves [0, 1])) :=
  ⟨by decide, rfl, by decide,
    tie_together_equality exampleTwoLeaves [0, 1] (by decide) rfl (by decide)⟩

end GPyTie
